import Mathlib

/-!
Verification development for the NFL play decision-tree repository
(`singlePlay`, `playIndexSet`, `playStats`, `decisionNode`).

The C++ sources are shallowly embedded: plays, index sets, summary
statistics and tree nodes become Lean structures, the mutating member
functions become pure functions returning the new state, and functions
that can throw `BaseException` (or a standard-library exception such as
`std::out_of_range` from `vector::at`) return `Except String`.
Machine-integer arithmetic of the source is modelled on `Nat`/`Int`
(the quantities involved stay far below the 16-bit bounds of `short`,
except where noted: the accumulator of `DecisionNode::pruneTree` is an
`unsigned short`, modelled with an explicit `% 65536`).
-/

namespace NFL

/-! ## singlePlay.h / singlePlay.cpp -/

/-- Play types, from `enum PlayType` in singlePlay.h (cardinality 11). -/
inductive PlayType where
  | run_left | run_middle | run_right
  | pass_short_right | pass_short_middle | pass_short_left
  | pass_deep_right | pass_deep_middle | pass_deep_left
  | field_goal | punt
deriving DecidableEq, Repr

/-- Numeric value of a play type, as the C++ enum value. -/
def PlayType.toNat : PlayType → Nat
  | .run_left => 0 | .run_middle => 1 | .run_right => 2
  | .pass_short_right => 3 | .pass_short_middle => 4 | .pass_short_left => 5
  | .pass_deep_right => 6 | .pass_deep_middle => 7 | .pass_deep_left => 8
  | .field_goal => 9 | .punt => 10

/-- All play types in C++ enum order. -/
def playTypeList : List PlayType :=
  [.run_left, .run_middle, .run_right, .pass_short_right, .pass_short_middle,
   .pass_short_left, .pass_deep_right, .pass_deep_middle, .pass_deep_left,
   .field_goal, .punt]

/-- `SinglePlay::getPlayTypeCount()`: `punt + 1 = 11`. -/
def getPlayTypeCount : Nat := 11

/-- Situational characteristics, from `enum PlayCharacteristic`. -/
inductive PlayCharacteristic where
  | down_number | distance_needed | field_location | time_remaining | score_differential
deriving DecidableEq, Repr

/-- Numeric value of a characteristic, as the C++ enum value
(`std::set<PlayCharacteristic>` iterates in this order). -/
def PlayCharacteristic.toNat : PlayCharacteristic → Nat
  | .down_number => 0 | .distance_needed => 1 | .field_location => 2
  | .time_remaining => 3 | .score_differential => 4

/-- Distance-needed categories, from `enum DistanceNeeded`. -/
inductive DistanceNeeded where
  | over_twenty | twenty_to_ten | ten_to_four | four_to_one | one_or_less
deriving DecidableEq, Repr

def DistanceNeeded.toNat : DistanceNeeded → Nat
  | .over_twenty => 0 | .twenty_to_ten => 1 | .ten_to_four => 2
  | .four_to_one => 3 | .one_or_less => 4

/-- Field-location categories, from `enum FieldLocation`. -/
inductive FieldLocation where
  | own_red_zone | middle | opp_red_zone
deriving DecidableEq, Repr

def FieldLocation.toNat : FieldLocation → Nat
  | .own_red_zone => 0 | .middle => 1 | .opp_red_zone => 2

/-- Time-remaining categories, from `enum TimeRemaining`. -/
inductive TimeRemaining where
  | outside_two_minutes | inside_two_minutes
deriving DecidableEq, Repr

def TimeRemaining.toNat : TimeRemaining → Nat
  | .outside_two_minutes => 0 | .inside_two_minutes => 1

/-- Score-differential categories, from `enum ScoreDifferential`. -/
inductive ScoreDifferential where
  | down_over_fourteen | down_over_seven | down_seven_less
  | even | up_seven_less | up_over_seven | up_over_fourteen
deriving DecidableEq, Repr

def ScoreDifferential.toNat : ScoreDifferential → Nat
  | .down_over_fourteen => 0 | .down_over_seven => 1 | .down_seven_less => 2
  | .even => 3 | .up_seven_less => 4 | .up_over_seven => 5 | .up_over_fourteen => 6

/-- `SinglePlay::getCategoryCount`: number of categories of each
characteristic (down numbers are treated as five categories, 0 to 4). -/
def getCategoryCount : PlayCharacteristic → Nat
  | .down_number => 5
  | .distance_needed => 5
  | .field_location => 3
  | .time_remaining => 2
  | .score_differential => 7

/-- `SinglePlay::distanceToDistanceNeeded` on the raw yardage. -/
def distanceToDistanceNeeded (distanceNeeded : Int) : DistanceNeeded :=
  if distanceNeeded ≤ 1 then .one_or_less
  else if distanceNeeded ≤ 4 then .four_to_one
  else if distanceNeeded ≤ 10 then .ten_to_four
  else if distanceNeeded < 20 then .twenty_to_ten
  else .over_twenty

/-- `SinglePlay::yardsToFieldLocation` on the raw yard line. -/
def yardsToFieldLocation (yardLine : Int) : FieldLocation :=
  if yardLine ≥ 90 then .own_red_zone
  else if yardLine > 10 then .middle
  else .opp_red_zone

/-- `SinglePlay::minutesToTimeRemaining` on the raw minute count. -/
def minutesToTimeRemaining (minutes : Int) : TimeRemaining :=
  if minutes < 2 ∨ (minutes ≥ 30 ∧ minutes < 32) then .inside_two_minutes
  else .outside_two_minutes

/-- `SinglePlay::scoreToScoreDifferential` on the two raw scores. -/
def scoreToScoreDifferential (ownScore oppScore : Int) : ScoreDifferential :=
  let scoreDiff := ownScore - oppScore
  if scoreDiff < -14 then .down_over_fourteen
  else if scoreDiff < -7 then .down_over_seven
  else if scoreDiff < 0 then .down_seven_less
  else if scoreDiff = 0 then .even
  else if scoreDiff ≤ 7 then .up_seven_less
  else if scoreDiff ≤ 14 then .up_over_seven
  else .up_over_fourteen

/-- One play record, mirroring the fields of `class SinglePlay`: the down
is stored raw (an `unsigned char` in C++, hence a `Nat` below 256), the
other four situational attributes are stored as their derived categories.
References into the play store are modelled by the play values themselves
(an index is then a list of plays, in index order). -/
structure SinglePlay where
  refId : Nat
  playType : PlayType
  down : Nat
  distanceNeeded : DistanceNeeded
  fieldLocation : FieldLocation
  timeRemaining : TimeRemaining
  scoreDifferential : ScoreDifferential
  distanceGained : Int
  turnedOver : Bool
deriving DecidableEq, Repr

/-- The `SinglePlay` constructor: situational categories are derived once
from the raw inputs; the down is converted `short` to `unsigned char`. -/
def SinglePlay.make (refId : Nat) (playType : PlayType)
    (down distanceNeeded yardLine minutes ownScore oppScore distanceGained : Int)
    (turnedOver : Bool) : SinglePlay :=
  { refId := refId
    playType := playType
    down := (down % 256).toNat
    distanceNeeded := distanceToDistanceNeeded distanceNeeded
    fieldLocation := yardsToFieldLocation yardLine
    timeRemaining := minutesToTimeRemaining minutes
    scoreDifferential := scoreToScoreDifferential ownScore oppScore
    distanceGained := distanceGained
    turnedOver := turnedOver }

/-- `SinglePlay::getValue`: the characteristic value as a number. -/
def SinglePlay.getValue (p : SinglePlay) : PlayCharacteristic → Nat
  | .down_number => p.down
  | .distance_needed => p.distanceNeeded.toNat
  | .field_location => p.fieldLocation.toNat
  | .time_remaining => p.timeRemaining.toNat
  | .score_differential => p.scoreDifferential.toNat

/-! ## playIndexSet.h / playIndexSet.cpp -/

/-- `PlayIndex`: an ordered sequence of references to plays. -/
abbrev PlayIndex := List SinglePlay

/-- `CategoryIndex`: play indexes split by category value. -/
abbrev CategoryIndex := List PlayIndex

/-- Total number of record references held in a category index. -/
def catRecordCount (ci : CategoryIndex) : Nat := (ci.map List.length).sum

/-- Number of categories of a category index that contain at least one
record (the `splitCount` loop at the top of `splitIndexByCharacteristic`). -/
def populatedCount (ci : CategoryIndex) : Nat :=
  (ci.filter (fun pi => ¬ pi.isEmpty)).length

/-- `class PlayIndexSet`: the set of tracked characteristics (`_indexes`,
an ordered `std::set`, modelled as a list) plus one category index per
characteristic. -/
structure PlayIndexSet where
  indexes : List PlayCharacteristic
  downIndex : CategoryIndex
  distanceNeededIndex : CategoryIndex
  fieldLocationIndex : CategoryIndex
  timeRemainingIndex : CategoryIndex
  scoreDifferentialIndex : CategoryIndex
deriving DecidableEq, Repr

/-- `PlayIndexSet::getIndex`: the category index of a characteristic. -/
def PlayIndexSet.getIndex (s : PlayIndexSet) : PlayCharacteristic → CategoryIndex
  | .down_number => s.downIndex
  | .distance_needed => s.distanceNeededIndex
  | .field_location => s.fieldLocationIndex
  | .time_remaining => s.timeRemainingIndex
  | .score_differential => s.scoreDifferentialIndex

/-- Replace the category index stored for one characteristic. -/
def PlayIndexSet.setIndexField (s : PlayIndexSet) (c : PlayCharacteristic)
    (ci : CategoryIndex) : PlayIndexSet :=
  match c with
  | .down_number => { s with downIndex := ci }
  | .distance_needed => { s with distanceNeededIndex := ci }
  | .field_location => { s with fieldLocationIndex := ci }
  | .time_remaining => { s with timeRemainingIndex := ci }
  | .score_differential => { s with scoreDifferentialIndex := ci }

/-- `PlayIndexSet::getIndexesAvailable`. -/
def PlayIndexSet.getIndexesAvailable (s : PlayIndexSet) : List PlayCharacteristic :=
  s.indexes

/-- `PlayIndexSet::dropIndex`: refuse to drop the last tracked index;
otherwise clear the characteristic's category index and erase the
characteristic from the tracked set. -/
def PlayIndexSet.dropIndex (s : PlayIndexSet) (c : PlayCharacteristic) : PlayIndexSet :=
  if s.indexes.length = 1 then s
  else { s.setIndexField c [] with indexes := s.indexes.erase c }

/-- `PlayIndexSet::splitIndexHelper`: distribute one play index into one
bucket per category of the split characteristic, by a direct per-record
field read, preserving record order within each bucket. -/
def splitIndexHelper (c : PlayCharacteristic) (existIndex : PlayIndex) : List PlayIndex :=
  (List.range (getCategoryCount c)).map
    (fun j => existIndex.filter (fun p => p.getValue c = j))

/-- Column `j` of the two-dimensional `results` array of
`PlayIndexSet::splitIndex`: for every category of the index being split,
the records whose split-characteristic value is `j`. -/
def resultsColumn (results : List (List PlayIndex)) (j : Nat) : CategoryIndex :=
  results.map (fun row => row.getD j [])

/-- Assign the non-empty columns after the first onto the sibling slots in
order, as the final `while` loop of `PlayIndexSet::splitIndex` does with
`push_back`; a surplus of columns or of slots is the fatal mismatch the
source detects. -/
def assignColumns : List CategoryIndex → List CategoryIndex →
    Except String (List CategoryIndex)
  | [], [] => .ok []
  | [], _ :: _ => .error "Index split failed, generated too many pieces"
  | _ :: _, [] => .error "Index split failed, generated too many pieces"
  | col :: cols, slot :: slots => do
    let rest ← assignColumns cols slots
    .ok ((slot ++ col) :: rest)

/-- `PlayIndexSet::splitIndex`: split one category index by the split
characteristic. The first non-empty column replaces the existing index
(the mutated set keeps the first populated category); the remaining
non-empty columns go to the sibling slots. Returns the new value of the
existing index together with the new values of the sibling slots, or the
error the source throws. -/
def splitIndex (c : PlayCharacteristic) (existIndex : CategoryIndex)
    (newIndexes : List CategoryIndex) : Except String (CategoryIndex × List CategoryIndex) :=
  if existIndex.isEmpty then .ok (existIndex, newIndexes)
  else
    let results := existIndex.map (splitIndexHelper c)
    match (List.range (getCategoryCount c)).filter
        (fun j => catRecordCount (resultsColumn results j) ≠ 0) with
    | [] => .error "Index split failed, generated pieces with no entries"
    | first :: rest => do
      let slots ← assignColumns (rest.map (resultsColumn results)) newIndexes
      .ok (resultsColumn results first, slots)

/-- Assemble the sibling index sets from the per-characteristic slot
lists, positionally (sibling `k` receives entry `k` of every list), each
carrying the tracked set copied from the mutated index set. -/
def mkSiblings (idxs : List PlayCharacteristic) :
    List CategoryIndex → List CategoryIndex → List CategoryIndex →
    List CategoryIndex → List CategoryIndex → List PlayIndexSet
  | d :: ds, dn :: dns, f :: fs, t :: ts, sc :: scs =>
    ⟨idxs, d, dn, f, t, sc⟩ :: mkSiblings idxs ds dns fs ts scs
  | _, _, _, _, _ => []

/-- `PlayIndexSet::splitIndexByCharacteristic`: count the populated
categories of the split characteristic, drop that characteristic (the
drop is silently refused when it is the sole tracked one), and when at
least two categories are populated, split all five category indexes,
mutating this set into the first populated category and returning one
sibling set per further populated category. -/
def PlayIndexSet.splitIndexByCharacteristic (s : PlayIndexSet) (c : PlayCharacteristic) :
    Except String (PlayIndexSet × List PlayIndexSet) :=
  let splitCount := populatedCount (s.getIndex c)
  let s1 := s.dropIndex c
  if splitCount ≤ 1 then .ok (s1, [])
  else do
    let empt : List CategoryIndex := List.replicate (splitCount - 1) []
    let down ← splitIndex c s1.downIndex empt
    let dn ← splitIndex c s1.distanceNeededIndex empt
    let fl ← splitIndex c s1.fieldLocationIndex empt
    let tr ← splitIndex c s1.timeRemainingIndex empt
    let sd ← splitIndex c s1.scoreDifferentialIndex empt
    .ok ({ indexes := s1.indexes
           downIndex := down.1
           distanceNeededIndex := dn.1
           fieldLocationIndex := fl.1
           timeRemainingIndex := tr.1
           scoreDifferentialIndex := sd.1 },
         mkSiblings s1.indexes down.2 dn.2 fl.2 tr.2 sd.2)

/-- All plays referenced anywhere in an index set (used to state
validity side conditions shared by several theorems). -/
def PlayIndexSet.allPlays (s : PlayIndexSet) : List SinglePlay :=
  s.downIndex.flatten ++ s.distanceNeededIndex.flatten ++ s.fieldLocationIndex.flatten ++
    s.timeRemainingIndex.flatten ++ s.scoreDifferentialIndex.flatten

end NFL

namespace NFL

/-! ## Arithmetic helper lemmas for the split-conservation proof -/

theorem sum_map_add {α : Type} (l : List α) (f g : α → Nat) :
    (l.map (fun x => f x + g x)).sum = (l.map f).sum + (l.map g).sum := by
  induction l with
  | nil => rfl
  | cons x xs ih => simp only [List.map_cons, List.sum_cons, ih]; omega

theorem sum_map_zero {α : Type} (l : List α) : (l.map (fun _ => (0 : Nat))).sum = 0 := by
  induction l with
  | nil => rfl
  | cons x xs ih => simpa using ih

theorem filtered_sum_eq {α : Type} (l : List α) (q : α → Bool) (f : α → Nat)
    (h : ∀ x ∈ l, ¬ q x → f x = 0) :
    ((l.filter q).map f).sum = (l.map f).sum := by
  induction l with
  | nil => rfl
  | cons x xs ih =>
    by_cases hx : q x
    · rw [List.filter_cons_of_pos hx]
      simp only [List.map_cons, List.sum_cons]
      rw [ih (fun y hy => h y (List.mem_cons_of_mem x hy))]
    · rw [List.filter_cons_of_neg hx]
      simp only [List.map_cons, List.sum_cons]
      rw [h x (List.mem_cons_self x xs) hx, ih (fun y hy => h y (List.mem_cons_of_mem x hy))]
      omega

theorem indicator_sum (n v : Nat) (hv : v < n) :
    ((List.range n).map (fun j => if v = j then 1 else 0)).sum = 1 := by
  have hb : ((List.range n).map (fun j => if v = j then 1 else 0)).sum
      = ∑ j ∈ Finset.range n, (fun j => if v = j then (1 : Nat) else 0) j := rfl
  rw [hb, Finset.sum_ite_eq]
  simp [Finset.mem_range.mpr hv]

theorem range_getD_map {α : Type} (e : α) (l : List α) (n : Nat) (h : l.length = n) :
    (List.range n).map (fun k => l.getD k e) = l := by
  subst h
  induction l with
  | nil => rfl
  | cons x xs ih =>
    rw [List.length_cons, List.range_succ_eq_map]
    simp only [List.map_cons, List.getD_cons_zero, List.map_map]
    congr 1

theorem getD_replicate_nil (m k : Nat) :
    (List.replicate m ([] : PlayIndex)).getD k [] = [] := by
  rcases Nat.lt_or_ge k m with h | h
  · simp [List.getD, List.getElem?_replicate, h]
  · simp [List.getD, List.getElem?_eq_none, h]

theorem sum_replicate_nil_counts (m : Nat) :
    ((List.replicate m ([] : CategoryIndex)).map catRecordCount).sum = 0 := by
  induction m with
  | zero => rfl
  | succ k ih => simpa [List.replicate_succ, catRecordCount] using ih

/-! ## Conservation of record counts through `splitIndex` -/

theorem splitIndexHelper_length (c : PlayCharacteristic) (r : PlayIndex) :
    (splitIndexHelper c r).length = getCategoryCount c := by
  simp [splitIndexHelper]

theorem splitIndexHelper_getD (c : PlayCharacteristic) (r : PlayIndex) (j : Nat)
    (hj : j < getCategoryCount c) :
    (splitIndexHelper c r).getD j [] = r.filter (fun p => p.getValue c = j) := by
  simp [splitIndexHelper, List.getD, hj]

theorem bucket_length_sum (c : PlayCharacteristic) (r : PlayIndex)
    (hval : ∀ p ∈ r, p.getValue c < getCategoryCount c) :
    ((List.range (getCategoryCount c)).map
      (fun j => (r.filter (fun p => p.getValue c = j)).length)).sum = r.length := by
  induction r with
  | nil => simpa using sum_map_zero (List.range (getCategoryCount c))
  | cons p ps ih =>
    have hps : ∀ q ∈ ps, q.getValue c < getCategoryCount c :=
      fun q hq => hval q (List.mem_cons_of_mem p hq)
    have hsplit : ∀ j, ((p :: ps).filter (fun q => q.getValue c = j)).length
        = (if p.getValue c = j then 1 else 0)
          + (ps.filter (fun q => q.getValue c = j)).length := by
      intro j
      by_cases hp : p.getValue c = j
      · rw [List.filter_cons_of_pos (by simpa using hp)]
        simp [hp]
        omega
      · rw [List.filter_cons_of_neg (by simpa using hp)]
        simp [hp]
    calc ((List.range (getCategoryCount c)).map
          (fun j => ((p :: ps).filter (fun q => q.getValue c = j)).length)).sum
        = ((List.range (getCategoryCount c)).map
            (fun j => (if p.getValue c = j then 1 else 0)
              + (ps.filter (fun q => q.getValue c = j)).length)).sum := by
          congr 1
          exact List.map_congr_left (fun j _ => hsplit j)
      _ = ((List.range (getCategoryCount c)).map
            (fun j => if p.getValue c = j then 1 else 0)).sum
          + ((List.range (getCategoryCount c)).map
              (fun j => (ps.filter (fun q => q.getValue c = j)).length)).sum :=
          sum_map_add _ _ _
      _ = 1 + ps.length := by
          rw [indicator_sum _ _ (hval p (List.mem_cons_self p ps)), ih hps]
      _ = (p :: ps).length := by simp [Nat.add_comm]

theorem resultsColumn_catCount_cons (row : List PlayIndex) (rows : List (List PlayIndex)) (j : Nat) :
    catRecordCount (resultsColumn (row :: rows) j)
      = (row.getD j []).length + catRecordCount (resultsColumn rows j) := by
  simp [resultsColumn, catRecordCount]

theorem columns_total (c : PlayCharacteristic) (exist : CategoryIndex)
    (hval : ∀ p ∈ exist.flatten, p.getValue c < getCategoryCount c) :
    ((List.range (getCategoryCount c)).map
      (fun j => catRecordCount (resultsColumn (exist.map (splitIndexHelper c)) j))).sum
      = catRecordCount exist := by
  induction exist with
  | nil =>
    have hz : ∀ j ∈ List.range (getCategoryCount c),
        catRecordCount (resultsColumn (([] : CategoryIndex).map (splitIndexHelper c)) j) = 0 := by
      intro j _; rfl
    rw [List.map_congr_left hz, sum_map_zero]
    rfl
  | cons r rows ih =>
    have hr : ∀ p ∈ r, p.getValue c < getCategoryCount c := by
      intro p hp
      exact hval p (by simp [List.flatten_cons]; exact Or.inl hp)
    have hrows : ∀ p ∈ rows.flatten, p.getValue c < getCategoryCount c := by
      intro p hp
      exact hval p (by simp [List.flatten_cons]; right; simpa using hp)
    have hstep : ∀ j ∈ List.range (getCategoryCount c),
        catRecordCount (resultsColumn ((r :: rows).map (splitIndexHelper c)) j)
          = (r.filter (fun p => p.getValue c = j)).length
            + catRecordCount (resultsColumn (rows.map (splitIndexHelper c)) j) := by
      intro j hj
      rw [List.map_cons, resultsColumn_catCount_cons,
        splitIndexHelper_getD c r j (List.mem_range.mp hj)]
    rw [List.map_congr_left hstep, sum_map_add, ih hrows,
      bucket_length_sum c r hr]
    simp [catRecordCount]

theorem assignColumns_ok_sum (cols slots out : List CategoryIndex)
    (h : assignColumns cols slots = .ok out) :
    (out.map catRecordCount).sum = (cols.map catRecordCount).sum + (slots.map catRecordCount).sum := by
  induction cols generalizing slots out with
  | nil =>
    cases slots with
    | nil =>
      simp [assignColumns] at h
      subst h; rfl
    | cons a b => simp [assignColumns] at h
  | cons col cols ih =>
    cases slots with
    | nil => simp [assignColumns] at h
    | cons slot slots =>
      simp only [assignColumns, bind, Except.bind] at h
      cases hrec : assignColumns cols slots with
      | error e => rw [hrec] at h; simp at h
      | ok rest =>
        rw [hrec] at h
        simp only [Except.ok.injEq] at h
        subst h
        simp only [List.map_cons, List.sum_cons]
        rw [ih slots rest hrec]
        simp [catRecordCount]
        omega

theorem assignColumns_ok_length (cols slots out : List CategoryIndex)
    (h : assignColumns cols slots = .ok out) : out.length = slots.length := by
  induction cols generalizing slots out with
  | nil =>
    cases slots with
    | nil => simp [assignColumns] at h; subst h; rfl
    | cons a b => simp [assignColumns] at h
  | cons col cols ih =>
    cases slots with
    | nil => simp [assignColumns] at h
    | cons slot slots =>
      simp only [assignColumns, bind, Except.bind] at h
      cases hrec : assignColumns cols slots with
      | error e => rw [hrec] at h; simp at h
      | ok rest =>
        rw [hrec] at h
        simp only [Except.ok.injEq] at h
        subst h
        simp [ih slots rest hrec]

theorem splitIndex_ok_conserve (c : PlayCharacteristic) (exist : CategoryIndex)
    (slots : List CategoryIndex) (exist2 : CategoryIndex) (slots2 : List CategoryIndex)
    (hval : ∀ p ∈ exist.flatten, p.getValue c < getCategoryCount c)
    (h : splitIndex c exist slots = .ok (exist2, slots2)) :
    catRecordCount exist2 + (slots2.map catRecordCount).sum
      = catRecordCount exist + (slots.map catRecordCount).sum := by
  rw [splitIndex] at h
  simp only [] at h
  by_cases he : exist.isEmpty
  · rw [if_pos he] at h
    simp only [Except.ok.injEq, Prod.mk.injEq] at h
    rw [← h.1, ← h.2]
  · rw [if_neg he] at h
    cases hf : (List.range (getCategoryCount c)).filter
        (fun j => catRecordCount (resultsColumn (exist.map (splitIndexHelper c)) j) ≠ 0) with
    | nil => rw [hf] at h; simp at h
    | cons first rest =>
      rw [hf] at h
      simp only [bind, Except.bind] at h
      cases ha : assignColumns (rest.map (resultsColumn (exist.map (splitIndexHelper c)))) slots with
      | error e => rw [ha] at h; simp at h
      | ok out =>
        rw [ha] at h
        simp only [Except.ok.injEq, Prod.mk.injEq] at h
        obtain ⟨h1, h2⟩ := h
        subst h1; subst h2
        have hsum := assignColumns_ok_sum _ _ _ ha
        have hfiltered : ((first :: rest).map
            (fun j => catRecordCount (resultsColumn (exist.map (splitIndexHelper c)) j))).sum
            = catRecordCount exist := by
          rw [← hf]
          rw [filtered_sum_eq]
          · exact columns_total c exist hval
          · intro x _ hx
            simpa using hx
        simp only [List.map_cons, List.sum_cons] at hfiltered
        rw [hsum, List.map_map]
        have : (rest.map (resultsColumn (exist.map (splitIndexHelper c)))).map catRecordCount
            = rest.map (fun j => catRecordCount (resultsColumn (exist.map (splitIndexHelper c)) j)) := by
          rw [List.map_map]; rfl
        rw [← List.map_map]
        rw [this]
        omega

theorem splitIndex_ok_length (c : PlayCharacteristic) (exist : CategoryIndex)
    (slots : List CategoryIndex) (exist2 : CategoryIndex) (slots2 : List CategoryIndex)
    (h : splitIndex c exist slots = .ok (exist2, slots2)) :
    slots2.length = slots.length := by
  rw [splitIndex] at h
  simp only [] at h
  by_cases he : exist.isEmpty
  · rw [if_pos he] at h
    simp only [Except.ok.injEq, Prod.mk.injEq] at h
    rw [← h.2]
  · rw [if_neg he] at h
    cases hf : (List.range (getCategoryCount c)).filter
        (fun j => catRecordCount (resultsColumn (exist.map (splitIndexHelper c)) j) ≠ 0) with
    | nil => rw [hf] at h; simp at h
    | cons first rest =>
      rw [hf] at h
      simp only [bind, Except.bind] at h
      cases ha : assignColumns (rest.map (resultsColumn (exist.map (splitIndexHelper c)))) slots with
      | error e => rw [ha] at h; simp at h
      | ok out =>
        rw [ha] at h
        simp only [Except.ok.injEq, Prod.mk.injEq] at h
        rw [← h.2]
        exact assignColumns_ok_length _ _ _ ha

/-! ## Field bookkeeping lemmas for `PlayIndexSet` -/

theorem setIndexField_getIndex_ne (s : PlayIndexSet) (c a : PlayCharacteristic)
    (ci : CategoryIndex) (hne : a ≠ c) : (s.setIndexField c ci).getIndex a = s.getIndex a := by
  cases c <;> cases a <;> first
    | exact absurd rfl hne
    | rfl

theorem setIndexField_getIndex_eq (s : PlayIndexSet) (c : PlayCharacteristic)
    (ci : CategoryIndex) : (s.setIndexField c ci).getIndex c = ci := by
  cases c <;> rfl

theorem dropIndex_getIndex_ne (s : PlayIndexSet) (c a : PlayCharacteristic) (hne : a ≠ c) :
    (s.dropIndex c).getIndex a = s.getIndex a := by
  rw [PlayIndexSet.dropIndex]
  by_cases hl : s.indexes.length = 1
  · rw [if_pos hl]
  · rw [if_neg hl]
    have := setIndexField_getIndex_ne s c a [] hne
    cases c <;> cases a <;> first
      | exact absurd rfl hne
      | rfl

theorem dropIndex_getIndex_eq (s : PlayIndexSet) (c : PlayCharacteristic)
    (hl : s.indexes.length ≠ 1) : (s.dropIndex c).getIndex c = [] := by
  rw [PlayIndexSet.dropIndex, if_neg hl]
  have := setIndexField_getIndex_eq s c []
  cases c <;> rfl

theorem dropIndex_indexes (s : PlayIndexSet) (c : PlayCharacteristic)
    (hl : s.indexes.length ≠ 1) : (s.dropIndex c).indexes = s.indexes.erase c := by
  rw [PlayIndexSet.dropIndex, if_neg hl]

theorem dropIndex_refused (s : PlayIndexSet) (c : PlayCharacteristic)
    (hl : s.indexes.length = 1) : s.dropIndex c = s := by
  rw [PlayIndexSet.dropIndex, if_pos hl]

theorem getIndex_flatten_sub_allPlays (s : PlayIndexSet) (a : PlayCharacteristic) :
    ∀ p ∈ (s.getIndex a).flatten, p ∈ s.allPlays := by
  intro p hp
  cases a <;> simp only [PlayIndexSet.getIndex] at hp <;>
    simp [PlayIndexSet.allPlays, hp]

/-- The five category-index fields of the siblings built by `mkSiblings`,
read back positionally. -/
theorem mkSiblings_maps (idxs : List PlayCharacteristic)
    (ds dns fs ts scs : List CategoryIndex)
    (h2 : dns.length = ds.length) (h3 : fs.length = ds.length)
    (h4 : ts.length = ds.length) (h5 : scs.length = ds.length) :
    ((mkSiblings idxs ds dns fs ts scs).map (fun t => t.downIndex) = ds)
    ∧ ((mkSiblings idxs ds dns fs ts scs).map (fun t => t.distanceNeededIndex) = dns)
    ∧ ((mkSiblings idxs ds dns fs ts scs).map (fun t => t.fieldLocationIndex) = fs)
    ∧ ((mkSiblings idxs ds dns fs ts scs).map (fun t => t.timeRemainingIndex) = ts)
    ∧ ((mkSiblings idxs ds dns fs ts scs).map (fun t => t.scoreDifferentialIndex) = scs)
    ∧ (∀ t ∈ mkSiblings idxs ds dns fs ts scs, t.indexes = idxs) := by
  induction ds generalizing dns fs ts scs with
  | nil =>
    rw [List.length_nil, List.length_eq_zero] at h2 h3 h4 h5
    subst h2; subst h3; subst h4; subst h5
    simp [mkSiblings]
  | cons d ds ih =>
    cases dns with
    | nil => simp at h2
    | cons dn dns =>
      cases fs with
      | nil => simp at h3
      | cons f fs =>
        cases ts with
        | nil => simp at h4
        | cons t ts =>
          cases scs with
          | nil => simp at h5
          | cons sc scs =>
            simp only [List.length_cons, Nat.succ.injEq] at h2 h3 h4 h5
            obtain ⟨e1, e2, e3, e4, e5, e6⟩ := ih dns fs ts scs h2 h3 h4 h5
            refine ⟨?_, ?_, ?_, ?_, ?_, ?_⟩
            · simp [mkSiblings, e1]
            · simp [mkSiblings, e2]
            · simp [mkSiblings, e3]
            · simp [mkSiblings, e4]
            · simp [mkSiblings, e5]
            · intro x hx
              rw [mkSiblings] at hx
              rcases List.mem_cons.mp hx with h | h
              · subst h; rfl
              · exact e6 x h

theorem dropIndex_flatten_sub (s : PlayIndexSet) (c a : PlayCharacteristic) :
    ∀ p ∈ ((s.dropIndex c).getIndex a).flatten, p ∈ s.allPlays := by
  by_cases hl : s.indexes.length = 1
  · rw [dropIndex_refused s c hl]
    exact getIndex_flatten_sub_allPlays s a
  · by_cases hac : a = c
    · subst hac
      rw [dropIndex_getIndex_eq s a hl]
      intro p hp
      simp at hp
    · rw [dropIndex_getIndex_ne s c a hac]
      exact getIndex_flatten_sub_allPlays s a

/-- Claim C1 (split conservation). Whenever
`splitIndexByCharacteristic` actually performs a split (at least two
populated categories of the split characteristic) and returns
successfully, the total number of record references is conserved exactly
for every characteristic still tracked by the mutated set: the mutated
set's count plus the counts of all returned siblings equal the count
before the split. The hypotheses ask that the tracked set has no
duplicates (it models a `std::set`) and that every referenced play has an
in-range value for the split characteristic (out-of-range values would be
undefined behaviour in the C++ bucketing loop). -/
theorem splitBy_conserves_record_count
    (s : PlayIndexSet) (c : PlayCharacteristic) (s2 : PlayIndexSet) (sibs : List PlayIndexSet)
    (hnd : s.indexes.Nodup)
    (hv : ∀ p ∈ s.allPlays, p.getValue c < getCategoryCount c)
    (hsplit : 2 ≤ populatedCount (s.getIndex c))
    (hok : s.splitIndexByCharacteristic c = .ok (s2, sibs)) :
    ∀ a ∈ s2.getIndexesAvailable,
      catRecordCount (s2.getIndex a)
        + (sibs.map (fun t => catRecordCount (t.getIndex a))).sum
        = catRecordCount (s.getIndex a) := by
  rw [PlayIndexSet.splitIndexByCharacteristic] at hok
  simp only [] at hok
  rw [if_neg (by omega)] at hok
  simp only [bind, Except.bind] at hok
  set m := populatedCount (s.getIndex c) - 1 with hm
  set empt : List CategoryIndex := List.replicate m [] with hempty
  have hvf : ∀ b, ∀ p ∈ ((s.dropIndex c).getIndex b).flatten,
      p.getValue c < getCategoryCount c :=
    fun b p hp => hv p (dropIndex_flatten_sub s c b p hp)
  cases h1 : splitIndex c (s.dropIndex c).downIndex empt with
  | error e => rw [h1] at hok; simp at hok
  | ok pr1 =>
  rw [h1] at hok
  cases h2 : splitIndex c (s.dropIndex c).distanceNeededIndex empt with
  | error e => rw [h2] at hok; simp at hok
  | ok pr2 =>
  rw [h2] at hok
  cases h3 : splitIndex c (s.dropIndex c).fieldLocationIndex empt with
  | error e => rw [h3] at hok; simp at hok
  | ok pr3 =>
  rw [h3] at hok
  cases h4 : splitIndex c (s.dropIndex c).timeRemainingIndex empt with
  | error e => rw [h4] at hok; simp at hok
  | ok pr4 =>
  rw [h4] at hok
  cases h5 : splitIndex c (s.dropIndex c).scoreDifferentialIndex empt with
  | error e => rw [h5] at hok; simp at hok
  | ok pr5 =>
  rw [h5] at hok
  simp only [Except.ok.injEq, Prod.mk.injEq] at hok
  obtain ⟨hs2, hsibs⟩ := hok
  have hlen1 := splitIndex_ok_length _ _ _ _ _ h1
  have hlen2 := splitIndex_ok_length _ _ _ _ _ h2
  have hlen3 := splitIndex_ok_length _ _ _ _ _ h3
  have hlen4 := splitIndex_ok_length _ _ _ _ _ h4
  have hlen5 := splitIndex_ok_length _ _ _ _ _ h5
  obtain ⟨m1, m2, m3, m4, m5, _⟩ := mkSiblings_maps (s.dropIndex c).indexes
    pr1.2 pr2.2 pr3.2 pr4.2 pr5.2
    (by rw [hlen2, hlen1]) (by rw [hlen3, hlen1]) (by rw [hlen4, hlen1]) (by rw [hlen5, hlen1])
  have hempt0 : (empt.map catRecordCount).sum = 0 := sum_replicate_nil_counts m
  have hcons : ∀ a, catRecordCount (s2.getIndex a)
      + (sibs.map (fun t => catRecordCount (t.getIndex a))).sum
      = catRecordCount ((s.dropIndex c).getIndex a) := by
    intro a
    have hmap : sibs.map (fun t => catRecordCount (t.getIndex a))
        = ((sibs.map (fun t => t.getIndex a)).map catRecordCount) := by
      rw [List.map_map]; rfl
    cases a with
    | down_number =>
      have := splitIndex_ok_conserve c _ empt pr1.1 pr1.2 (hvf .down_number) h1
      rw [hmap, ← hs2, ← hsibs, PlayIndexSet.getIndex]
      have hget : (mkSiblings (s.dropIndex c).indexes pr1.2 pr2.2 pr3.2 pr4.2 pr5.2).map
          (fun t => t.getIndex .down_number) = pr1.2 := m1
      rw [hget]
      simp only [PlayIndexSet.getIndex] at this ⊢
      omega
    | distance_needed =>
      have := splitIndex_ok_conserve c _ empt pr2.1 pr2.2 (hvf .distance_needed) h2
      rw [hmap, ← hs2, ← hsibs, PlayIndexSet.getIndex]
      have hget : (mkSiblings (s.dropIndex c).indexes pr1.2 pr2.2 pr3.2 pr4.2 pr5.2).map
          (fun t => t.getIndex .distance_needed) = pr2.2 := m2
      rw [hget]
      simp only [PlayIndexSet.getIndex] at this ⊢
      omega
    | field_location =>
      have := splitIndex_ok_conserve c _ empt pr3.1 pr3.2 (hvf .field_location) h3
      rw [hmap, ← hs2, ← hsibs, PlayIndexSet.getIndex]
      have hget : (mkSiblings (s.dropIndex c).indexes pr1.2 pr2.2 pr3.2 pr4.2 pr5.2).map
          (fun t => t.getIndex .field_location) = pr3.2 := m3
      rw [hget]
      simp only [PlayIndexSet.getIndex] at this ⊢
      omega
    | time_remaining =>
      have := splitIndex_ok_conserve c _ empt pr4.1 pr4.2 (hvf .time_remaining) h4
      rw [hmap, ← hs2, ← hsibs, PlayIndexSet.getIndex]
      have hget : (mkSiblings (s.dropIndex c).indexes pr1.2 pr2.2 pr3.2 pr4.2 pr5.2).map
          (fun t => t.getIndex .time_remaining) = pr4.2 := m4
      rw [hget]
      simp only [PlayIndexSet.getIndex] at this ⊢
      omega
    | score_differential =>
      have := splitIndex_ok_conserve c _ empt pr5.1 pr5.2 (hvf .score_differential) h5
      rw [hmap, ← hs2, ← hsibs, PlayIndexSet.getIndex]
      have hget : (mkSiblings (s.dropIndex c).indexes pr1.2 pr2.2 pr3.2 pr4.2 pr5.2).map
          (fun t => t.getIndex .score_differential) = pr5.2 := m5
      rw [hget]
      simp only [PlayIndexSet.getIndex] at this ⊢
      omega
  intro a ha
  rw [hcons a]
  by_cases hl : s.indexes.length = 1
  · rw [dropIndex_refused s c hl]
  · have hidx : s2.indexes = s.indexes.erase c := by
      rw [← hs2]
      exact dropIndex_indexes s c hl
    have hane : a ≠ c := by
      have : a ∈ s.indexes.erase c := by
        rw [← hidx]
        exact ha
      exact ((List.Nodup.mem_erase_iff hnd).mp this).1
    rw [dropIndex_getIndex_ne s c a hane]

/-! ## Concrete example data used by witnesses and counterexamples -/

/-- Example play: first down, 7 to go, midfield, tied, a run left. -/
def exP1 : SinglePlay :=
  { refId := 1, playType := .run_left, down := 1, distanceNeeded := .ten_to_four
    fieldLocation := .middle, timeRemaining := .outside_two_minutes
    scoreDifferential := .even, distanceGained := 4, turnedOver := false }

/-- Example play: second down, 3 to go, opponent red zone, tied, a punt. -/
def exP2 : SinglePlay :=
  { refId := 2, playType := .punt, down := 2, distanceNeeded := .four_to_one
    fieldLocation := .opp_red_zone, timeRemaining := .outside_two_minutes
    scoreDifferential := .even, distanceGained := 30, turnedOver := true }

/-- A consistent two-play index set over all five characteristics. -/
def exC1set : PlayIndexSet :=
  { indexes := [.down_number, .distance_needed, .field_location, .time_remaining,
                .score_differential]
    downIndex := [[], [exP1], [exP2], [], []]
    distanceNeededIndex := [[], [], [exP1], [exP2], []]
    fieldLocationIndex := [[], [exP1], [exP2]]
    timeRemainingIndex := [[exP1, exP2], []]
    scoreDifferentialIndex := [[], [], [], [exP1, exP2], [], [], []] }

/-- The mutated set after splitting `exC1set` on field location. -/
def exC1self : PlayIndexSet :=
  { indexes := [.down_number, .distance_needed, .time_remaining, .score_differential]
    downIndex := [[], [exP1], [], [], []]
    distanceNeededIndex := [[], [], [exP1], [], []]
    fieldLocationIndex := []
    timeRemainingIndex := [[exP1], []]
    scoreDifferentialIndex := [[], [], [], [exP1], [], [], []] }

/-- The single sibling set produced by that split. -/
def exC1sib : PlayIndexSet :=
  { indexes := [.down_number, .distance_needed, .time_remaining, .score_differential]
    downIndex := [[], [], [exP2], [], []]
    distanceNeededIndex := [[], [], [], [exP2], []]
    fieldLocationIndex := []
    timeRemainingIndex := [[exP2], []]
    scoreDifferentialIndex := [[], [], [], [exP2], [], [], []] }

/-- Witness for C1: the conservation theorem applied to a concrete split
of a two-play index set on field location. -/
theorem splitBy_conserves_record_count_witness :
    exC1set.indexes.Nodup
    ∧ (∀ p ∈ exC1set.allPlays, p.getValue .field_location < getCategoryCount .field_location)
    ∧ 2 ≤ populatedCount (exC1set.getIndex .field_location)
    ∧ exC1set.splitIndexByCharacteristic .field_location = .ok (exC1self, [exC1sib])
    ∧ (∀ a ∈ exC1self.getIndexesAvailable,
        catRecordCount (exC1self.getIndex a)
          + (([exC1sib]).map (fun t => catRecordCount (t.getIndex a))).sum
          = catRecordCount (exC1set.getIndex a)) :=
  ⟨by decide, by decide, by decide, rfl,
    splitBy_conserves_record_count exC1set .field_location exC1self [exC1sib]
      (by decide) (by decide) (by decide) rfl⟩

/-! ## Claim C5: split on a characteristic with at most one populated category -/

/-- Counterexample to C5 as stated: when the split characteristic is the
sole tracked one, `dropIndex` silently refuses, so `splitIndexByCharacteristic`
returns the set completely unchanged; the attribute is neither cleared nor
removed from the tracked set, contradicting the claim that it is always
dropped. `exC5set` tracks only the down number, with one populated category. -/
def exC5set : PlayIndexSet :=
  { indexes := [.down_number]
    downIndex := [[exP1], [], [], [], []]
    distanceNeededIndex := []
    fieldLocationIndex := []
    timeRemainingIndex := []
    scoreDifferentialIndex := [] }

/-- C5 counterexample: a split attempt on the sole tracked attribute with
one populated category returns no siblings but does not drop the
attribute: the mutated set still tracks it and its partition is intact. -/
theorem splitBy_single_category_not_dropped :
    populatedCount (exC5set.getIndex .down_number) ≤ 1
    ∧ exC5set.splitIndexByCharacteristic .down_number = .ok (exC5set, [])
    ∧ exC5set.indexes = [.down_number]
    ∧ exC5set.getIndex .down_number ≠ [] :=
  ⟨by decide, rfl, rfl, by decide⟩

/-- Claim C5 as amended: a split on a characteristic with at most one
populated category returns no siblings and only applies `dropIndex` to
the split characteristic; the drop clears that partition and removes the
characteristic from the tracked set, leaving every other partition and
the rest of the state unchanged, except that the drop is refused (the
whole set is unchanged) when the characteristic is the sole tracked one. -/
theorem splitBy_single_category_drops_only
    (s : PlayIndexSet) (c : PlayCharacteristic)
    (h : populatedCount (s.getIndex c) ≤ 1) :
    s.splitIndexByCharacteristic c = .ok (s.dropIndex c, [])
    ∧ (s.indexes.length = 1 → s.dropIndex c = s)
    ∧ (s.indexes.length ≠ 1 →
        (s.dropIndex c).getIndex c = []
        ∧ (s.dropIndex c).indexes = s.indexes.erase c
        ∧ ∀ a, a ≠ c → (s.dropIndex c).getIndex a = s.getIndex a) := by
  refine ⟨?_, ?_, ?_⟩
  · rw [PlayIndexSet.splitIndexByCharacteristic]
    simp only []
    rw [if_pos h]
  · intro hl
    exact dropIndex_refused s c hl
  · intro hl
    exact ⟨dropIndex_getIndex_eq s c hl, dropIndex_indexes s c hl,
      fun a ha => dropIndex_getIndex_ne s c a ha⟩

/-- Witness for the amended C5: splitting `exC1set` (five tracked
characteristics) on time remaining, whose partition has one populated
category, drops exactly that characteristic. -/
theorem splitBy_single_category_drops_only_witness :
    populatedCount (exC1set.getIndex .time_remaining) ≤ 1
    ∧ (exC1set.splitIndexByCharacteristic .time_remaining = .ok (exC1set.dropIndex .time_remaining, [])
      ∧ (exC1set.indexes.length = 1 → exC1set.dropIndex .time_remaining = exC1set)
      ∧ (exC1set.indexes.length ≠ 1 →
          (exC1set.dropIndex .time_remaining).getIndex .time_remaining = []
          ∧ (exC1set.dropIndex .time_remaining).indexes = exC1set.indexes.erase .time_remaining
          ∧ ∀ a, a ≠ .time_remaining →
              (exC1set.dropIndex .time_remaining).getIndex a = exC1set.getIndex a)) :=
  ⟨by decide, splitBy_single_category_drops_only exC1set .time_remaining (by decide)⟩

/-! ## Claim C6: the split attribute is dropped from self and all siblings -/

theorem mkSiblings_mem_fields (idxs : List PlayCharacteristic)
    (ds dns fs ts scs : List CategoryIndex) :
    ∀ t ∈ mkSiblings idxs ds dns fs ts scs,
      t.indexes = idxs ∧ t.downIndex ∈ ds ∧ t.distanceNeededIndex ∈ dns
      ∧ t.fieldLocationIndex ∈ fs ∧ t.timeRemainingIndex ∈ ts
      ∧ t.scoreDifferentialIndex ∈ scs := by
  induction ds generalizing dns fs ts scs with
  | nil => intro t ht; simp [mkSiblings] at ht
  | cons d ds ih =>
    intro t ht
    cases dns with
    | nil => simp [mkSiblings] at ht
    | cons dn dns =>
    cases fs with
    | nil => simp [mkSiblings] at ht
    | cons f fs =>
    cases ts with
    | nil => simp [mkSiblings] at ht
    | cons tr ts =>
    cases scs with
    | nil => simp [mkSiblings] at ht
    | cons sc scs =>
    rw [mkSiblings] at ht
    rcases List.mem_cons.mp ht with h | h
    · subst h
      refine ⟨rfl, ?_, ?_, ?_, ?_, ?_⟩ <;> exact List.mem_cons_self _ _
    · obtain ⟨e1, e2, e3, e4, e5, e6⟩ := ih dns fs ts scs t h
      exact ⟨e1, List.mem_cons_of_mem _ e2, List.mem_cons_of_mem _ e3,
        List.mem_cons_of_mem _ e4, List.mem_cons_of_mem _ e5, List.mem_cons_of_mem _ e6⟩

/-- A set tracking only the down number whose down partition has two
populated categories: the split is performed (one sibling) but the drop
of the split attribute is refused, because it is the sole tracked one. -/
def exC6set : PlayIndexSet :=
  { indexes := [.down_number]
    downIndex := [[exP1], [exP2], [], [], []]
    distanceNeededIndex := []
    fieldLocationIndex := []
    timeRemainingIndex := []
    scoreDifferentialIndex := [] }

/-- Mutated set after splitting `exC6set` on the down number. -/
def exC6self : PlayIndexSet :=
  { indexes := [.down_number]
    downIndex := [[exP1], [], [], [], []]
    distanceNeededIndex := []
    fieldLocationIndex := []
    timeRemainingIndex := []
    scoreDifferentialIndex := [] }

/-- Sibling set produced by splitting `exC6set` on the down number. -/
def exC6sib : PlayIndexSet :=
  { indexes := [.down_number]
    downIndex := [[], [exP2], [], [], []]
    distanceNeededIndex := []
    fieldLocationIndex := []
    timeRemainingIndex := []
    scoreDifferentialIndex := [] }

/-- Counterexample to C6 as stated: this split call returns a non-empty
sibling list, yet the split attribute is still tracked by the mutated set
and by the sibling, and its partition in each is non-empty (the internal
`dropIndex` was refused because the split attribute was the sole tracked
one). -/
theorem splitBy_split_attribute_kept :
    exC6set.splitIndexByCharacteristic .down_number = .ok (exC6self, [exC6sib])
    ∧ PlayCharacteristic.down_number ∈ exC6self.indexes
    ∧ PlayCharacteristic.down_number ∈ exC6sib.indexes
    ∧ exC6self.getIndex .down_number ≠ []
    ∧ exC6sib.getIndex .down_number ≠ [] :=
  ⟨rfl, by decide, by decide, by decide, by decide⟩

/-- Claim C6 as amended: provided the tracked set has no duplicates and
holds more than one characteristic when `splitIndexByCharacteristic` is
called (so the internal drop is not refused), a call returning a
non-empty sibling list leaves the split characteristic untracked, with an
empty partition, in the mutated set and in every returned sibling. -/
theorem splitBy_drops_split_attribute
    (s : PlayIndexSet) (c : PlayCharacteristic) (s2 : PlayIndexSet) (sibs : List PlayIndexSet)
    (hnd : s.indexes.Nodup) (hl : s.indexes.length ≠ 1)
    (hok : s.splitIndexByCharacteristic c = .ok (s2, sibs)) (hne : sibs ≠ []) :
    (c ∉ s2.indexes ∧ s2.getIndex c = [])
    ∧ ∀ t ∈ sibs, c ∉ t.indexes ∧ t.getIndex c = [] := by
  rw [PlayIndexSet.splitIndexByCharacteristic] at hok
  simp only [] at hok
  have hcne : c ∉ s.indexes.erase c := fun hmem => ((List.Nodup.mem_erase_iff hnd).mp hmem).1 rfl
  by_cases hcount : populatedCount (s.getIndex c) ≤ 1
  · rw [if_pos hcount] at hok
    simp only [Except.ok.injEq, Prod.mk.injEq] at hok
    obtain ⟨hs2, hsibs⟩ := hok
    subst hs2
    refine ⟨⟨?_, dropIndex_getIndex_eq s c hl⟩, ?_⟩
    · rw [dropIndex_indexes s c hl]
      exact hcne
    · intro t ht
      rw [← hsibs] at ht
      simp at ht
  · rw [if_neg hcount] at hok
    simp only [bind, Except.bind] at hok
    set m := populatedCount (s.getIndex c) - 1 with hm
    set empt : List CategoryIndex := List.replicate m [] with hempty
    cases h1 : splitIndex c (s.dropIndex c).downIndex empt with
    | error e => rw [h1] at hok; simp at hok
    | ok pr1 =>
    rw [h1] at hok
    cases h2 : splitIndex c (s.dropIndex c).distanceNeededIndex empt with
    | error e => rw [h2] at hok; simp at hok
    | ok pr2 =>
    rw [h2] at hok
    cases h3 : splitIndex c (s.dropIndex c).fieldLocationIndex empt with
    | error e => rw [h3] at hok; simp at hok
    | ok pr3 =>
    rw [h3] at hok
    cases h4 : splitIndex c (s.dropIndex c).timeRemainingIndex empt with
    | error e => rw [h4] at hok; simp at hok
    | ok pr4 =>
    rw [h4] at hok
    cases h5 : splitIndex c (s.dropIndex c).scoreDifferentialIndex empt with
    | error e => rw [h5] at hok; simp at hok
    | ok pr5 =>
    rw [h5] at hok
    simp only [Except.ok.injEq, Prod.mk.injEq] at hok
    obtain ⟨hs2, hsibs⟩ := hok
    have hidx2 : s2.indexes = s.indexes.erase c := by
      rw [← hs2]
      exact dropIndex_indexes s c hl
    have hgetc : (s.dropIndex c).getIndex c = [] := dropIndex_getIndex_eq s c hl
    have hempt_mem : ∀ x ∈ empt, x = ([] : CategoryIndex) := by
      intro x hx
      exact List.eq_of_mem_replicate hx
    have hsplit_nil : ∀ pr : CategoryIndex × List CategoryIndex,
        splitIndex c ([] : CategoryIndex) empt = .ok pr → pr.1 = [] ∧ pr.2 = empt := by
      intro pr hpr
      rw [splitIndex] at hpr
      rw [if_pos (by rfl)] at hpr
      simp only [Except.ok.injEq] at hpr
      rw [← hpr]
      exact ⟨rfl, rfl⟩
    have hfields : s2.getIndex c = [] ∧
        (sibs.map (fun t => t.getIndex c) = empt ∨
          ∀ t ∈ sibs, t.getIndex c ∈ empt) := by
      cases c with
      | down_number =>
        have hfe : (s.dropIndex .down_number).downIndex = [] := hgetc
        rw [hfe] at h1
        obtain ⟨e1, e2⟩ := hsplit_nil pr1 h1
        constructor
        · rw [← hs2, PlayIndexSet.getIndex, e1]
        · right
          intro t ht
          rw [← hsibs] at ht
          have := (mkSiblings_mem_fields _ _ _ _ _ _ t ht).2.1
          rw [← e2]
          exact this
      | distance_needed =>
        have hfe : (s.dropIndex .distance_needed).distanceNeededIndex = [] := hgetc
        rw [hfe] at h2
        obtain ⟨e1, e2⟩ := hsplit_nil pr2 h2
        constructor
        · rw [← hs2, PlayIndexSet.getIndex, e1]
        · right
          intro t ht
          rw [← hsibs] at ht
          have := (mkSiblings_mem_fields _ _ _ _ _ _ t ht).2.2.1
          rw [← e2]
          exact this
      | field_location =>
        have hfe : (s.dropIndex .field_location).fieldLocationIndex = [] := hgetc
        rw [hfe] at h3
        obtain ⟨e1, e2⟩ := hsplit_nil pr3 h3
        constructor
        · rw [← hs2, PlayIndexSet.getIndex, e1]
        · right
          intro t ht
          rw [← hsibs] at ht
          have := (mkSiblings_mem_fields _ _ _ _ _ _ t ht).2.2.2.1
          rw [← e2]
          exact this
      | time_remaining =>
        have hfe : (s.dropIndex .time_remaining).timeRemainingIndex = [] := hgetc
        rw [hfe] at h4
        obtain ⟨e1, e2⟩ := hsplit_nil pr4 h4
        constructor
        · rw [← hs2, PlayIndexSet.getIndex, e1]
        · right
          intro t ht
          rw [← hsibs] at ht
          have := (mkSiblings_mem_fields _ _ _ _ _ _ t ht).2.2.2.2.1
          rw [← e2]
          exact this
      | score_differential =>
        have hfe : (s.dropIndex .score_differential).scoreDifferentialIndex = [] := hgetc
        rw [hfe] at h5
        obtain ⟨e1, e2⟩ := hsplit_nil pr5 h5
        constructor
        · rw [← hs2, PlayIndexSet.getIndex, e1]
        · right
          intro t ht
          rw [← hsibs] at ht
          have := (mkSiblings_mem_fields _ _ _ _ _ _ t ht).2.2.2.2.2
          rw [← e2]
          exact this
    refine ⟨⟨?_, hfields.1⟩, ?_⟩
    · rw [hidx2]
      exact hcne
    · intro t ht
      have hti : t.indexes = s.indexes.erase c := by
        have := (mkSiblings_mem_fields _ _ _ _ _ _ t (hsibs ▸ ht)).1
        rw [this, dropIndex_indexes s c hl]
      constructor
      · rw [hti]
        exact hcne
      · rcases hfields.2 with hmap | hall
        · have : t.getIndex c ∈ sibs.map (fun t => t.getIndex c) := List.mem_map_of_mem _ ht
          rw [hmap] at this
          exact hempt_mem _ this
        · exact hempt_mem _ (hall t ht)

/-- Witness for the amended C6: the concrete field-location split of
`exC1set` (five tracked characteristics, so the drop is performed) leaves
field location untracked and empty in the mutated set and the sibling. -/
theorem splitBy_drops_split_attribute_witness :
    exC1set.indexes.Nodup
    ∧ exC1set.indexes.length ≠ 1
    ∧ exC1set.splitIndexByCharacteristic .field_location = .ok (exC1self, [exC1sib])
    ∧ ([exC1sib] ≠ ([] : List PlayIndexSet))
    ∧ ((PlayCharacteristic.field_location ∉ exC1self.indexes
          ∧ exC1self.getIndex .field_location = [])
        ∧ ∀ t ∈ [exC1sib], PlayCharacteristic.field_location ∉ t.indexes
            ∧ t.getIndex .field_location = []) :=
  ⟨by decide, by decide, rfl, by decide,
    splitBy_drops_split_attribute exC1set .field_location exC1self [exC1sib]
      (by decide) (by decide) rfl (by decide)⟩

/-! ## Claim C3: the candidate scan of the `DecisionNode` constructor -/

/-- `DecisionNode::MinInformationGain = 0.02` (decisionNode.cpp line 44). -/
def MinInformationGain : ℚ := 1/50

/-- The candidate loop of the `DecisionNode` constructor (decisionNode.cpp
lines 78 to 117), for a snapshot list of tracked characteristics. The
floating-point computation `getInfoGainRatio` is abstracted as an oracle
`ratioOf` applied to the candidate's category index (the only per-candidate
data that computation reads besides the fixed play-type counts, which the
caller folds into the oracle); the integer-exact guard of line 104 - a
candidate whose index has at most one populated category scores zero - is
kept explicit. A candidate scoring below the threshold is dropped from the
index set; otherwise it overwrites the recorded best candidate. -/
def scanCharacteristics (ratioOf : CategoryIndex → ℚ) :
    List PlayCharacteristic → PlayIndexSet → Option (PlayCharacteristic × ℚ) →
    PlayIndexSet × Option (PlayCharacteristic × ℚ)
  | [], s, best => (s, best)
  | c :: rest, s, best =>
    let infoGainValue : ℚ :=
      if populatedCount (s.getIndex c) ≤ 1 then 0 else ratioOf (s.getIndex c)
    if infoGainValue < MinInformationGain then
      scanCharacteristics ratioOf rest (s.dropIndex c) best
    else
      scanCharacteristics ratioOf rest s (some (c, infoGainValue))

/-- The gain value the scan computes for a characteristic, relative to a
fixed index set (drops performed during the scan never change another
characteristic's own category index, so this is well defined). -/
def effRatioValue (ratioOf : CategoryIndex → ℚ) (s : PlayIndexSet)
    (c : PlayCharacteristic) : ℚ :=
  if populatedCount (s.getIndex c) ≤ 1 then 0 else ratioOf (s.getIndex c)

theorem getLast?_cons_or {α : Type} (a : α) (l : List α) :
    (a :: l).getLast? = l.getLast?.or (some a) := by
  induction l generalizing a with
  | nil => rfl
  | cons b t ih =>
    rw [List.getLast?_cons_cons, ih b]
    cases t.getLast? <;> rfl

theorem scanCharacteristics_spec (ratioOf : CategoryIndex → ℚ) (s0 : PlayIndexSet)
    (cs : List PlayCharacteristic) (hnd : cs.Nodup) :
    ∀ (s : PlayIndexSet) (best : Option (PlayCharacteristic × ℚ)),
      (∀ c ∈ cs, s.getIndex c = s0.getIndex c) →
      (scanCharacteristics ratioOf cs s best).2
        = ((cs.filter
              (fun c => ¬ effRatioValue ratioOf s0 c < MinInformationGain)).getLast?.map
            (fun c => (c, effRatioValue ratioOf s0 c))).or best := by
  induction cs with
  | nil => intro s best _; rfl
  | cons c rest ih =>
    intro s best hs
    have hval : (if populatedCount (s.getIndex c) ≤ 1 then (0 : ℚ) else ratioOf (s.getIndex c))
        = effRatioValue ratioOf s0 c := by
      rw [effRatioValue, hs c (List.mem_cons_self c rest)]
    have hnd' : rest.Nodup := (List.nodup_cons.mp hnd).2
    have hcnotin : c ∉ rest := (List.nodup_cons.mp hnd).1
    rw [scanCharacteristics]
    simp only [hval]
    by_cases hlt : effRatioValue ratioOf s0 c < MinInformationGain
    · rw [if_pos hlt]
      have hpres : ∀ b ∈ rest, (s.dropIndex c).getIndex b = s0.getIndex b := by
        intro b hb
        have hbc : b ≠ c := fun h => hcnotin (h ▸ hb)
        rw [dropIndex_getIndex_ne s c b hbc]
        exact hs b (List.mem_cons_of_mem c hb)
      rw [ih hnd' (s.dropIndex c) best hpres]
      have hfilter : (c :: rest).filter
          (fun x => ¬ effRatioValue ratioOf s0 x < MinInformationGain)
          = rest.filter (fun x => ¬ effRatioValue ratioOf s0 x < MinInformationGain) := by
        rw [List.filter_cons_of_neg]
        simpa using hlt
      rw [hfilter]
    · rw [if_neg hlt]
      rw [ih hnd' s (some (c, effRatioValue ratioOf s0 c))
        (fun b hb => hs b (List.mem_cons_of_mem c hb))]
      have hfilter : (c :: rest).filter
          (fun x => ¬ effRatioValue ratioOf s0 x < MinInformationGain)
          = c :: rest.filter (fun x => ¬ effRatioValue ratioOf s0 x < MinInformationGain) := by
        rw [List.filter_cons_of_pos]
        simpa using hlt
      rw [hfilter, getLast?_cons_or]
      cases (rest.filter
          (fun x => ¬ effRatioValue ratioOf s0 x < MinInformationGain)).getLast? <;> rfl

/-- Claim C3: whenever at least one scanned characteristic's gain value
clears the threshold, the candidate recorded by the scan is the last one
in iteration order that cleared it (with its own gain value), regardless
of whether an earlier candidate had a larger value. -/
theorem scan_retains_last_clearing (ratioOf : CategoryIndex → ℚ) (s0 : PlayIndexSet)
    (cs : List PlayCharacteristic) (hnd : cs.Nodup) (clast : PlayCharacteristic)
    (hlast : (cs.filter
        (fun c => ¬ effRatioValue ratioOf s0 c < MinInformationGain)).getLast?
      = some clast) :
    (scanCharacteristics ratioOf cs s0 none).2
      = some (clast, effRatioValue ratioOf s0 clast) := by
  rw [scanCharacteristics_spec ratioOf s0 cs hnd s0 none (fun c _ => rfl), hlast]
  rfl

/-- Oracle for the C3 witness: the down-number index scores 1, any other
index scores one tenth. -/
def exRatioOf : CategoryIndex → ℚ :=
  fun ci => if ci = exC1set.getIndex .down_number then 1 else 1/10

/-- The characteristic snapshot list, in `std::set` iteration order. -/
def allCharacteristics : List PlayCharacteristic :=
  [.down_number, .distance_needed, .field_location, .time_remaining, .score_differential]

/-- Witness for C3: on `exC1set`, down number, distance needed and field
location all clear the threshold (down number with the largest value 1),
yet the scan records field location, the last one that cleared - not the
maximum. -/
theorem scan_retains_last_clearing_witness :
    allCharacteristics.Nodup
    ∧ (allCharacteristics.filter
        (fun c => ¬ effRatioValue exRatioOf exC1set c < MinInformationGain)).getLast?
      = some .field_location
    ∧ (scanCharacteristics exRatioOf allCharacteristics exC1set none).2
      = some (.field_location, effRatioValue exRatioOf exC1set .field_location)
    ∧ effRatioValue exRatioOf exC1set .field_location
        < effRatioValue exRatioOf exC1set .down_number := by
  refine ⟨by decide, ?_, ?_, ?_⟩
  · norm_num +decide [allCharacteristics, List.filter, effRatioValue, exRatioOf,
      MinInformationGain, populatedCount, exC1set, PlayIndexSet.getIndex]
  · exact scan_retains_last_clearing exRatioOf exC1set allCharacteristics (by decide)
      .field_location
      (by norm_num +decide [allCharacteristics, List.filter, effRatioValue, exRatioOf,
        MinInformationGain, populatedCount, exC1set, PlayIndexSet.getIndex])
  · norm_num +decide [effRatioValue, exRatioOf, MinInformationGain, populatedCount, exC1set,
      PlayIndexSet.getIndex]

/-! ## playStats.h / playStats.cpp -/

/-- Insertion into an ascending list; `sortDistances` models the
`std::sort` calls on distance samples (ascending order of `short`). -/
def insertSorted (x : Int) : List Int → List Int
  | [] => [x]
  | y :: ys => if x ≤ y then x :: y :: ys else y :: insertSorted x ys

/-- Ascending sort of a distance sample list. -/
def sortDistances (l : List Int) : List Int := l.foldr insertSorted []

/-- Integer square root by bounded search; models the truncating
`(short)sqrt((double)totalVariance)` of the `OverallPlaySummary`
constructor (exact for the value ranges of `short`). -/
def floorSqrt (n : Nat) : Nat :=
  ((List.range (n + 1)).filter (fun k => k * k ≤ n)).length - 1

/-- `class OverallPlaySummary` (playStats.h): average distance, distance
standard deviation (named `_distanceVariance` in the source), per-mille
turnover rate and population size. -/
structure OverallPlaySummary where
  averageDistance : Int
  distanceVariance : Nat
  turnoverPercentage : Nat
  totalCount : Nat
deriving DecidableEq, Repr

/-- The `OverallPlaySummary` constructor (playStats.cpp lines 35 to 67):
truncating integer average, integer variance of the sample around that
average, truncated square root, per-mille turnover rate; all zero for an
empty sample. -/
def OverallPlaySummary.make (playDistances : List Int) (turnoverCount : Nat) :
    OverallPlaySummary :=
  let totalCount := playDistances.length
  if totalCount = 0 then
    { averageDistance := 0, distanceVariance := 0, turnoverPercentage := 0, totalCount := 0 }
  else
    let totalDistance := playDistances.foldl (· + ·) 0
    let averageDistance := Int.tdiv totalDistance totalCount
    let totalVariance :=
      (playDistances.map
        (fun d => (d - averageDistance) * (d - averageDistance))).foldl (· + ·) 0
    { averageDistance := averageDistance
      distanceVariance := floorSqrt (Int.tdiv totalVariance totalCount).toNat
      turnoverPercentage := turnoverCount * 1000 / totalCount
      totalCount := totalCount }

/-- `class DetailedPlaySummary` (playStats.h): the raw sorted distance
sample, turnover count, recomputed group statistics, the fixed
dataset-wide statistics for the play type, and the two per-mille shares. -/
structure DetailedPlaySummary where
  playDistances : List Int
  turnoverCount : Nat
  groupStats : OverallPlaySummary
  overallStats : OverallPlaySummary
  percentOfConditionPlays : Nat
  percentOfTypePlays : Nat
deriving DecidableEq, Repr

/-- `DetailedPlaySummary::getPlayCount`: the distance-sample size. -/
def DetailedPlaySummary.getPlayCount (d : DetailedPlaySummary) : Nat :=
  d.playDistances.length

/-- The `DetailedPlaySummary` constructor (playStats.cpp lines 70 to 81). -/
def DetailedPlaySummary.make (playDistances : List Int) (turnoverCount : Nat)
    (conditionPlayCount : Nat) (overallTypeStatistics : OverallPlaySummary) :
    DetailedPlaySummary :=
  { playDistances := sortDistances playDistances
    turnoverCount := turnoverCount
    groupStats := OverallPlaySummary.make playDistances turnoverCount
    overallStats := overallTypeStatistics
    percentOfConditionPlays := playDistances.length * 1000 / conditionPlayCount
    percentOfTypePlays := playDistances.length * 1000 / overallTypeStatistics.totalCount }

/-- `DetailedPlaySummary::updateConditionStats` (playStats.h lines 151 to
156): recompute the share of the node total against a new total. -/
def DetailedPlaySummary.updateConditionStats (d : DetailedPlaySummary)
    (totalMergedPlays : Nat) : DetailedPlaySummary :=
  { d with percentOfConditionPlays := d.playDistances.length * 1000 / totalMergedPlays }

/-- `DetailedPlaySummary::merge` (playStats.cpp lines 85 to 101):
concatenate and re-sort the samples, sum the turnover counts, rebuild the
group statistics from the combined sample, recompute the share of the
type total with the unchanged dataset-wide denominator and recompute the
share of the node total against the supplied combined total. -/
def DetailedPlaySummary.merge (d other : DetailedPlaySummary)
    (totalMergedPlays : Nat) : DetailedPlaySummary :=
  let distances := sortDistances (d.playDistances ++ other.playDistances)
  let tc := d.turnoverCount + other.turnoverCount
  ({ playDistances := distances
     turnoverCount := tc
     groupStats := OverallPlaySummary.make distances tc
     overallStats := d.overallStats
     percentOfConditionPlays := d.percentOfConditionPlays
     percentOfTypePlays :=
       distances.length * 1000 / d.overallStats.totalCount } :
    DetailedPlaySummary).updateConditionStats totalMergedPlays

/-- `DetailedPlayData`: `std::map<PlayType, DetailedPlaySummary>`,
modelled as an association list sorted strictly by the play-type enum
value. -/
abbrev DetailedPlayData := List (PlayType × DetailedPlaySummary)

/-- Sortedness invariant of a `std::map` traversal. -/
def sortedByKey (m : DetailedPlayData) : Prop :=
  m.Pairwise (fun a b => a.1.toNat < b.1.toNat)

/-- Combined play count of a summary map (the first loop of
`PlaySummaryFactory::mergeData`). -/
def detailedTotalCount (m : DetailedPlayData) : Nat :=
  (m.map (fun e => e.2.getPlayCount)).sum

/-- The `while` advance of `mergeData`: split off the leading entries
whose play type is below the merge key (these get their condition share
updated as the cursor passes them). -/
def splitLtKey (k : Nat) : DetailedPlayData → DetailedPlayData × DetailedPlayData
  | [] => ([], [])
  | e :: rest =>
    if e.1.toNat < k then
      let p := splitLtKey k rest
      (e :: p.1, p.2)
    else ([], e :: rest)

/-- The merge-join loop of `PlaySummaryFactory::mergeData` (playStats.cpp
lines 183 to 210). For each entry of `other` in key order: result entries
with smaller keys are passed and updated; an equal-key result entry is
merged in place; otherwise the entry is inserted, updated. Both a merged
and an inserted entry are re-updated by the next pass of the `while`
loop in the source; that second `updateConditionStats` call recomputes
the same value (same sample size, same total), so each entry is processed
once here. Result entries after the last key of `other` are never
reached by the loop and stay untouched. -/
def mergeDataLoop (playCount : Nat) : DetailedPlayData → DetailedPlayData → DetailedPlayData
  | res, [] => res
  | res, (k, v) :: orest =>
    let p := splitLtKey k.toNat res
    let pre := p.1.map (fun e => (e.1, e.2.updateConditionStats playCount))
    match p.2 with
    | (rk, rv) :: rrest =>
      if rk = k then
        pre ++ (rk, rv.merge v playCount) :: mergeDataLoop playCount rrest orest
      else
        pre ++ (k, v.updateConditionStats playCount) :: mergeDataLoop playCount ((rk, rv) :: rrest) orest
    | [] => pre ++ (k, v.updateConditionStats playCount) :: mergeDataLoop playCount [] orest

/-- `PlaySummaryFactory::mergeData`: compute the combined play count of
both maps, then run the merge-join loop with it. -/
def mergeData (result other : DetailedPlayData) : DetailedPlayData :=
  mergeDataLoop (detailedTotalCount result + detailedTotalCount other) result other

/-! ## Claim C8: share recomputation in `mergeData` -/

theorem merge_share_updated (d other : DetailedPlaySummary) (pc : Nat) :
    (d.merge other pc).percentOfConditionPlays = (d.merge other pc).getPlayCount * 1000 / pc := rfl

theorem update_share_updated (d : DetailedPlaySummary) (pc : Nat) :
    (d.updateConditionStats pc).percentOfConditionPlays
      = (d.updateConditionStats pc).getPlayCount * 1000 / pc := rfl

theorem merge_keeps_overall (d other : DetailedPlaySummary) (pc : Nat) :
    (d.merge other pc).overallStats = d.overallStats := rfl

theorem update_keeps_overall (d : DetailedPlaySummary) (pc : Nat) :
    (d.updateConditionStats pc).overallStats = d.overallStats := rfl

theorem splitLtKey_append (k : Nat) (res : DetailedPlayData) :
    (splitLtKey k res).1 ++ (splitLtKey k res).2 = res := by
  induction res with
  | nil => rfl
  | cons e rest ih =>
    rw [splitLtKey]
    by_cases he : e.1.toNat < k
    · rw [if_pos he]
      simpa using ih
    · rw [if_neg he]
      rfl

theorem splitLtKey_pre_lt (k : Nat) (res : DetailedPlayData) :
    ∀ e ∈ (splitLtKey k res).1, e.1.toNat < k := by
  induction res with
  | nil => intro e he; simp [splitLtKey] at he
  | cons a rest ih =>
    intro e he
    rw [splitLtKey] at he
    by_cases ha : a.1.toNat < k
    · rw [if_pos ha] at he
      rcases List.mem_cons.mp he with h | h
      · subst h; exact ha
      · exact ih e h
    · rw [if_neg ha] at he
      simp at he

theorem splitLtKey_rem_ge (k : Nat) (res : DetailedPlayData) (hs : sortedByKey res) :
    ∀ e ∈ (splitLtKey k res).2, k ≤ e.1.toNat := by
  induction res with
  | nil => intro e he; simp [splitLtKey] at he
  | cons a rest ih =>
    intro e he
    rw [splitLtKey] at he
    rw [sortedByKey, List.pairwise_cons] at hs
    by_cases ha : a.1.toNat < k
    · rw [if_pos ha] at he
      exact ih hs.2 e he
    · rw [if_neg ha] at he
      rcases List.mem_cons.mp he with h | h
      · subst h; omega
      · have := hs.1 e h
        omega

theorem sorted_split (k : Nat) (res : DetailedPlayData) (hs : sortedByKey res) :
    sortedByKey (splitLtKey k res).1 ∧ sortedByKey (splitLtKey k res).2 := by
  have := splitLtKey_append k res
  rw [sortedByKey] at hs ⊢
  rw [← this] at hs
  have h := List.pairwise_append.mp hs
  exact ⟨h.1, h.2.1⟩

theorem sorted_tail {a : PlayType × DetailedPlaySummary} {rest : DetailedPlayData}
    (hs : sortedByKey (a :: rest)) : sortedByKey rest :=
  (List.pairwise_cons.mp hs).2

theorem sorted_le_getLast (m : DetailedPlayData) (hs : sortedByKey m)
    (last : PlayType × DetailedPlaySummary) (hl : m.getLast? = some last) :
    ∀ e ∈ m, e.1.toNat ≤ last.1.toNat := by
  induction m with
  | nil => intro e he; simp at he
  | cons a rest ih =>
    intro e he
    cases rest with
    | nil =>
      simp at hl
      subst hl
      simp at he
      subst he
      exact Nat.le_refl _
    | cons b t =>
      rw [List.getLast?_cons_cons] at hl
      have hlm : last ∈ b :: t := by
        obtain ⟨hne2, heq⟩ :=
          List.mem_getLast?_eq_getLast (show last ∈ (b :: t).getLast? from hl)
        rw [heq]
        exact List.getLast_mem hne2
      rcases List.mem_cons.mp he with h | h
      · subst h
        have := (List.pairwise_cons.mp hs).1 last hlm
        omega
      · exact ih (sorted_tail hs) hl e h

theorem PlayType.toNat_injective : ∀ a b : PlayType, a.toNat = b.toNat → a = b := by
  intro a b h
  cases a <;> cases b <;> first
    | rfl
    | simp [PlayType.toNat] at h


theorem mergeDataLoop_cons_nil (pc : Nat) (res : DetailedPlayData) (ok : PlayType)
    (ov : DetailedPlaySummary) (orest : DetailedPlayData) (pre : DetailedPlayData)
    (hsp : splitLtKey ok.toNat res = (pre, [])) :
    mergeDataLoop pc res ((ok, ov) :: orest)
      = pre.map (fun e => (e.1, e.2.updateConditionStats pc))
        ++ (ok, ov.updateConditionStats pc) :: mergeDataLoop pc [] orest := by
  simp only [mergeDataLoop, hsp]

theorem mergeDataLoop_cons_merge (pc : Nat) (res : DetailedPlayData) (ok : PlayType)
    (ov : DetailedPlaySummary) (orest : DetailedPlayData) (pre : DetailedPlayData)
    (rv : DetailedPlaySummary) (rrest : DetailedPlayData)
    (hsp : splitLtKey ok.toNat res = (pre, (ok, rv) :: rrest)) :
    mergeDataLoop pc res ((ok, ov) :: orest)
      = pre.map (fun e => (e.1, e.2.updateConditionStats pc))
        ++ (ok, rv.merge ov pc) :: mergeDataLoop pc rrest orest := by
  simp only [mergeDataLoop, hsp, if_pos]

theorem mergeDataLoop_cons_insert (pc : Nat) (res : DetailedPlayData) (ok : PlayType)
    (ov : DetailedPlaySummary) (orest : DetailedPlayData) (pre : DetailedPlayData)
    (rk : PlayType) (rv : DetailedPlaySummary) (rrest : DetailedPlayData)
    (hsp : splitLtKey ok.toNat res = (pre, (rk, rv) :: rrest)) (hne : rk ≠ ok) :
    mergeDataLoop pc res ((ok, ov) :: orest)
      = pre.map (fun e => (e.1, e.2.updateConditionStats pc))
        ++ (ok, ov.updateConditionStats pc) :: mergeDataLoop pc ((rk, rv) :: rrest) orest := by
  simp only [mergeDataLoop, hsp, if_neg hne]

theorem mergeDataLoop_spec (pc : Nat) (other : DetailedPlayData) :
    ∀ res : DetailedPlayData, sortedByKey res → sortedByKey other →
      ∀ k v, (k, v) ∈ mergeDataLoop pc res other →
        ((∃ e ∈ other, k.toNat ≤ e.1.toNat) →
          v.percentOfConditionPlays = v.getPlayCount * 1000 / pc)
        ∧ ((∀ e ∈ other, e.1.toNat < k.toNat) → (k, v) ∈ res)
        ∧ (∃ w, ((k, w) ∈ res ∨ (k, w) ∈ other) ∧ v.overallStats = w.overallStats) := by
  induction other with
  | nil =>
    intro res hres hoth k v hmem
    rw [mergeDataLoop] at hmem
    refine ⟨?_, fun _ => hmem, ⟨v, Or.inl hmem, rfl⟩⟩
    intro h
    obtain ⟨e, he, _⟩ := h
    simp at he
  | cons o orest ih =>
    obtain ⟨ok, ov⟩ := o
    intro res hres hoth k v hmem
    rcases hsp : splitLtKey ok.toNat res with ⟨pre, rem⟩
    have hap : pre ++ rem = res := by
      have := splitLtKey_append ok.toNat res
      rw [hsp] at this
      exact this
    have hpre_lt : ∀ e ∈ pre, e.1.toNat < ok.toNat := by
      have := splitLtKey_pre_lt ok.toNat res
      rw [hsp] at this
      exact this
    have hrem_ge : ∀ e ∈ rem, ok.toNat ≤ e.1.toNat := by
      have := splitLtKey_rem_ge ok.toNat res hres
      rw [hsp] at this
      exact this
    have hrem_sorted : sortedByKey rem := by
      have := sorted_split ok.toNat res hres
      rw [hsp] at this
      exact this.2
    have hoth2 : sortedByKey orest := sorted_tail hoth
    have hok_lt : ∀ e ∈ orest, ok.toNat < e.1.toNat :=
      fun e he => (List.pairwise_cons.mp hoth).1 e he
    have hpre_case : ∀ e0 ∈ pre,
        (k, v) = (e0.1, e0.2.updateConditionStats pc) →
        ((∃ e ∈ (ok, ov) :: orest, k.toNat ≤ e.1.toNat) →
          v.percentOfConditionPlays = v.getPlayCount * 1000 / pc)
        ∧ ((∀ e ∈ (ok, ov) :: orest, e.1.toNat < k.toNat) → (k, v) ∈ res)
        ∧ (∃ w, ((k, w) ∈ res ∨ (k, w) ∈ (ok, ov) :: orest)
            ∧ v.overallStats = w.overallStats) := by
      intro e0 he0 hkv
      have hk : k = e0.1 := congrArg Prod.fst hkv
      have hv : v = e0.2.updateConditionStats pc := congrArg Prod.snd hkv
      refine ⟨fun _ => by rw [hv]; exact update_share_updated e0.2 pc, ?_, ?_⟩
      · intro hb
        exfalso
        have h1 : ok.toNat < k.toNat := hb (ok, ov) (List.mem_cons_self _ _)
        have h2 := hpre_lt e0 he0
        rw [hk] at h1
        omega
      · refine ⟨e0.2, Or.inl ?_, by rw [hv]; exact update_keeps_overall e0.2 pc⟩
        have he0res : e0 ∈ res := by
          rw [← hap]
          exact List.mem_append_left _ he0
        rw [hk]
        exact he0res
    have htail_case : ∀ rem2 : DetailedPlayData, sortedByKey rem2 →
        (∀ e ∈ rem2, ok.toNat < e.1.toNat) →
        (∀ e, e ∈ rem2 → e ∈ res) →
        (k, v) ∈ mergeDataLoop pc rem2 orest →
        ((∃ e ∈ (ok, ov) :: orest, k.toNat ≤ e.1.toNat) →
          v.percentOfConditionPlays = v.getPlayCount * 1000 / pc)
        ∧ ((∀ e ∈ (ok, ov) :: orest, e.1.toNat < k.toNat) → (k, v) ∈ res)
        ∧ (∃ w, ((k, w) ∈ res ∨ (k, w) ∈ (ok, ov) :: orest)
            ∧ v.overallStats = w.overallStats) := by
      intro rem2 hs2 hgt2 hsub2 hm2
      obtain ⟨ia, ib, ic⟩ := ih rem2 hs2 hoth2 k v hm2
      refine ⟨?_, ?_, ?_⟩
      · intro hex
        by_cases hex2 : ∃ e ∈ orest, k.toNat ≤ e.1.toNat
        · exact ia hex2
        · have hall : ∀ e ∈ orest, e.1.toNat < k.toNat := by
            intro e he
            by_contra hc
            exact hex2 ⟨e, he, by omega⟩
          have hkv2 := ib hall
          have hgtk : ok.toNat < k.toNat := hgt2 (k, v) hkv2
          obtain ⟨e, he, hke⟩ := hex
          rcases List.mem_cons.mp he with h | h
          · subst h
            have hke2 : k.toNat ≤ ok.toNat := hke
            omega
          · have := hall e h
            omega
      · intro hb
        have hall : ∀ e ∈ orest, e.1.toNat < k.toNat :=
          fun e he => hb e (List.mem_cons_of_mem _ he)
        exact hsub2 _ (ib hall)
      · obtain ⟨w, hw, hweq⟩ := ic
        rcases hw with h | h
        · exact ⟨w, Or.inl (hsub2 _ h), hweq⟩
        · exact ⟨w, Or.inr (List.mem_cons_of_mem _ h), hweq⟩
    have hinsert_head :
        (k, v) = (ok, ov.updateConditionStats pc) →
        ((∃ e ∈ (ok, ov) :: orest, k.toNat ≤ e.1.toNat) →
          v.percentOfConditionPlays = v.getPlayCount * 1000 / pc)
        ∧ ((∀ e ∈ (ok, ov) :: orest, e.1.toNat < k.toNat) → (k, v) ∈ res)
        ∧ (∃ w, ((k, w) ∈ res ∨ (k, w) ∈ (ok, ov) :: orest)
            ∧ v.overallStats = w.overallStats) := by
      intro hh
      have hk : k = ok := congrArg Prod.fst hh
      have hv : v = ov.updateConditionStats pc := congrArg Prod.snd hh
      refine ⟨fun _ => by rw [hv]; exact update_share_updated ov pc, ?_, ?_⟩
      · intro hb
        exfalso
        have h1 : ok.toNat < k.toNat := hb (ok, ov) (List.mem_cons_self _ _)
        rw [hk] at h1
        omega
      · exact ⟨ov, Or.inr (by rw [hk]; exact List.mem_cons_self _ _),
          by rw [hv]; exact update_keeps_overall ov pc⟩
    cases rem with
    | nil =>
      rw [mergeDataLoop_cons_nil pc res ok ov orest pre hsp] at hmem
      rcases List.mem_append.mp hmem with hl | hr
      · obtain ⟨e0, he0, hkv⟩ := List.mem_map.mp hl
        exact hpre_case e0 he0 hkv.symm
      · rcases List.mem_cons.mp hr with hh | ht
        · exact hinsert_head hh
        · exact htail_case [] (by constructor) (by intro e he; simp at he)
            (by intro e he; simp at he) ht
    | cons r rrest =>
      obtain ⟨rk, rv⟩ := r
      have hrrest_gt : ∀ e ∈ rrest, rk.toNat < e.1.toNat :=
        fun e he => (List.pairwise_cons.mp hrem_sorted).1 e he
      have hsubrem : ∀ e, e ∈ (rk, rv) :: rrest → e ∈ res := by
        intro e he
        rw [← hap]
        exact List.mem_append_right _ he
      have hrk_ge : ok.toNat ≤ rk.toNat := hrem_ge (rk, rv) (List.mem_cons_self _ _)
      by_cases hrkok : rk = ok
      · subst hrkok
        rw [mergeDataLoop_cons_merge pc res rk ov orest pre rv rrest hsp] at hmem
        rcases List.mem_append.mp hmem with hl | hr
        · obtain ⟨e0, he0, hkv⟩ := List.mem_map.mp hl
          exact hpre_case e0 he0 hkv.symm
        · rcases List.mem_cons.mp hr with hh | ht
          · have hk : k = rk := congrArg Prod.fst hh
            have hv : v = rv.merge ov pc := congrArg Prod.snd hh
            refine ⟨fun _ => by rw [hv]; exact merge_share_updated rv ov pc, ?_, ?_⟩
            · intro hb
              exfalso
              have h1 : rk.toNat < k.toNat := hb (rk, ov) (List.mem_cons_self _ _)
              rw [hk] at h1
              omega
            · exact ⟨rv, Or.inl (by rw [hk]; exact hsubrem _ (List.mem_cons_self _ _)),
                by rw [hv]; exact merge_keeps_overall rv ov pc⟩
          · refine htail_case rrest (sorted_tail hrem_sorted) ?_ ?_ ht
            · intro e he
              have := hrrest_gt e he
              omega
            · intro e he
              exact hsubrem e (List.mem_cons_of_mem _ he)
      · rw [mergeDataLoop_cons_insert pc res ok ov orest pre rk rv rrest hsp hrkok] at hmem
        rcases List.mem_append.mp hmem with hl | hr
        · obtain ⟨e0, he0, hkv⟩ := List.mem_map.mp hl
          exact hpre_case e0 he0 hkv.symm
        · rcases List.mem_cons.mp hr with hh | ht
          · exact hinsert_head hh
          · refine htail_case ((rk, rv) :: rrest) hrem_sorted ?_ hsubrem ht
            intro e he
            have hne2 : ok.toNat ≠ rk.toNat :=
              fun h => hrkok (PlayType.toNat_injective rk ok h.symm)
            rcases List.mem_cons.mp he with h | h
            · subst h
              show ok.toNat < rk.toNat
              omega
            · have := hrrest_gt e h
              omega

/-- Claim C8 as amended: after `mergeData`, every entry of the resulting
map whose play type does not exceed the greatest play type in `other` has
its share of the node total recomputed as its play count times 1000,
integer-divided by the combined total play count of both maps; every
entry's baseline statistics (the share-of-type denominator) come
unchanged from a source entry of the same play type. Entries whose play
type exceeds every play type of `other` are exactly the corresponding
entries of the original map, untouched - the merge cursor never reaches
them. -/
theorem mergeData_share_recomputation
    (res other : DetailedPlayData) (hres : sortedByKey res) (hoth : sortedByKey other)
    (last : PlayType × DetailedPlaySummary) (hlast : other.getLast? = some last) :
    ∀ k v, (k, v) ∈ mergeData res other →
      (k.toNat ≤ last.1.toNat →
        v.percentOfConditionPlays
          = v.getPlayCount * 1000 / (detailedTotalCount res + detailedTotalCount other))
      ∧ (last.1.toNat < k.toNat → (k, v) ∈ res)
      ∧ (∃ w, ((k, w) ∈ res ∨ (k, w) ∈ other) ∧ v.overallStats = w.overallStats) := by
  intro k v hmem
  have hlmem : last ∈ other := by
    obtain ⟨hne2, heq⟩ := List.mem_getLast?_eq_getLast (show last ∈ other.getLast? from hlast)
    rw [heq]
    exact List.getLast_mem hne2
  have hmax := sorted_le_getLast other hoth last hlast
  obtain ⟨ia, ib, ic⟩ := mergeDataLoop_spec
    (detailedTotalCount res + detailedTotalCount other) other res hres hoth k v hmem
  refine ⟨?_, ?_, ic⟩
  · intro hk
    exact ia ⟨last, hlmem, hk⟩
  · intro hk
    refine ib ?_
    intro e he
    have := hmax e he
    omega

/-- Baseline overall statistics used by the C8 example summaries. -/
def exBase : OverallPlaySummary :=
  { averageDistance := 5, distanceVariance := 2, turnoverPercentage := 100, totalCount := 10 }

/-- C8 example: a leaf map holding one run-left play and two punts
(shares computed against its own total of 3). -/
def exC8res : DetailedPlayData :=
  [(.run_left, DetailedPlaySummary.make [4] 0 3 exBase),
   (.punt, DetailedPlaySummary.make [30, 35] 1 3 exBase)]

/-- C8 example: a sibling leaf map holding one run-middle play. -/
def exC8other : DetailedPlayData :=
  [(.run_middle, DetailedPlaySummary.make [5] 0 1 exBase)]

/-- Counterexample to C8 as stated: merging `exC8other` into `exC8res`
(combined total 4) leaves the punt entry - whose play type is greater
than every play type in `other` - completely untouched: its share of the
node total stays 666 per mille (2 of 3), not the 500 per mille (2 of 4)
that recomputation against the combined total would give. -/
theorem mergeData_keeps_stale_share :
    detailedTotalCount exC8res + detailedTotalCount exC8other = 4
    ∧ (mergeData exC8res exC8other).lookup .punt
        = some (DetailedPlaySummary.make [30, 35] 1 3 exBase)
    ∧ (DetailedPlaySummary.make [30, 35] 1 3 exBase).percentOfConditionPlays = 666
    ∧ (DetailedPlaySummary.make [30, 35] 1 3 exBase).getPlayCount * 1000 / 4 = 500 :=
  ⟨rfl, rfl, rfl, rfl⟩

/-- Witness for the amended C8 on the concrete example maps. -/
theorem mergeData_share_recomputation_witness :
    sortedByKey exC8res
    ∧ sortedByKey exC8other
    ∧ exC8other.getLast? = some (.run_middle, DetailedPlaySummary.make [5] 0 1 exBase)
    ∧ (∀ k v, (k, v) ∈ mergeData exC8res exC8other →
        (k.toNat ≤ (PlayType.run_middle).toNat →
          v.percentOfConditionPlays
            = v.getPlayCount * 1000 / (detailedTotalCount exC8res + detailedTotalCount exC8other))
        ∧ ((PlayType.run_middle).toNat < k.toNat → (k, v) ∈ exC8res)
        ∧ (∃ w, ((k, w) ∈ exC8res ∨ (k, w) ∈ exC8other) ∧ v.overallStats = w.overallStats)) := by
  have h1 : sortedByKey exC8res := by
    norm_num [sortedByKey, exC8res, List.pairwise_cons, PlayType.toNat]
  have h2 : sortedByKey exC8other := by
    norm_num [sortedByKey, exC8other, List.pairwise_cons, PlayType.toNat]
  exact ⟨h1, h2, rfl,
    mergeData_share_recomputation exC8res exC8other h1 h2
      (.run_middle, DetailedPlaySummary.make [5] 0 1 exBase) rfl⟩

/-! ## decisionNode.h / decisionNode.cpp: data model -/

/-- `PlayCountMap`: `std::map<PlayType, unsigned short>`, an association
list sorted by the play-type enum value. -/
abbrev PlayCountMap := List (PlayType × Nat)

/-- Find-or-insert increment of one play type into the sorted count map
(the body of the per-play loop of `DecisionNode::indexesToPlayCounts`). -/
def bumpPlayCount (pt : PlayType) : PlayCountMap → PlayCountMap
  | [] => [(pt, 1)]
  | (q, n) :: rest =>
    if q.toNat < pt.toNat then (q, n) :: bumpPlayCount pt rest
    else if q = pt then (q, n + 1) :: rest
    else (pt, 1) :: (q, n) :: rest

/-- `DecisionNode::indexesToPlayCounts` for a single play index. -/
def indexToPlayCounts (index : PlayIndex) (data : PlayCountMap) : PlayCountMap :=
  index.foldl (fun d p => bumpPlayCount p.playType d) data

/-- The record subset denoted by an index set, as traversed by
`indexesToPlayCounts` and `indexesToCounts`: the flattening of the
partition of the first still-tracked characteristic (all partitions
denote the same subset in a consistent set). -/
def playsOf (s : PlayIndexSet) : List SinglePlay :=
  match s.getIndexesAvailable.head? with
  | none => []
  | some c => (s.getIndex c).flatten

/-- `DecisionNode::indexesToPlayCounts` over an index set: empty when no
characteristic is tracked, otherwise accumulate over the categories of
the first tracked characteristic's partition. -/
def indexesToPlayCounts (s : PlayIndexSet) : PlayCountMap :=
  match s.getIndexesAvailable.head? with
  | none => []
  | some c => (s.getIndex c).foldl (fun d pi => indexToPlayCounts pi d) []

/-- `PlaySummaryFactory::buildDetailedData` (playStats.cpp lines 120 to
141): per-play-type distance samples and turnover counts gathered from
the index set (`indexesToCounts`), the node total, and one
`DetailedPlaySummary` per play type with at least one record, in play
type order. The dataset-wide baseline is modelled as a total function
play type to summary: its only producer, `buildSummaryData`, always
emits exactly one entry per play type, which the source reads with
`overallData.at(index3)`. -/
def buildDetailedData (s : PlayIndexSet) (overallData : PlayType → OverallPlaySummary) :
    DetailedPlayData :=
  let distances := fun pt =>
    ((playsOf s).filter (fun p => p.playType = pt)).map (fun p => p.distanceGained)
  let turnovers := fun pt =>
    ((playsOf s).filter (fun p => p.playType = pt ∧ p.turnedOver = true)).length
  let totalPlayCount := (playTypeList.map (fun pt => (distances pt).length)).sum
  playTypeList.filterMap (fun pt =>
    if (distances pt).isEmpty then none
    else some (pt, DetailedPlaySummary.make (distances pt) (turnovers pt)
      totalPlayCount (overallData pt)))

mutual
/-- `class DecisionNode`: one node type playing both roles, as in the
source: a node with children is a decision on `decisionValue` (with the
compact category-to-child mapping, -1 for an unpopulated category), a
node without children is a leaf holding the play-data map. The
`decisionValue` field is uninitialized in the source until a split is
chosen, hence an `Option` here. -/
inductive DecisionNode where
  | mk (decisionValue : Option PlayCharacteristic) (categoryChildMapping : List Int)
       (childNodes : DecisionNodeList) (playData : DetailedPlayData)
deriving DecidableEq

/-- The owned child list (`std::vector<DecisionNode*>`). -/
inductive DecisionNodeList where
  | nil
  | cons (head : DecisionNode) (tail : DecisionNodeList)
deriving DecidableEq
end

def DecisionNode.decisionValue : DecisionNode → Option PlayCharacteristic
  | .mk dv _ _ _ => dv

def DecisionNode.categoryChildMapping : DecisionNode → List Int
  | .mk _ m _ _ => m

def DecisionNode.childNodes : DecisionNode → DecisionNodeList
  | .mk _ _ cs _ => cs

def DecisionNode.playData : DecisionNode → DetailedPlayData
  | .mk _ _ _ pd => pd

def DecisionNodeList.isNil : DecisionNodeList → Bool
  | .nil => true
  | .cons _ _ => false

/-- `DecisionNode::isLeaf`: a node without children is a leaf. -/
def DecisionNode.isLeaf (t : DecisionNode) : Bool :=
  t.childNodes.isNil

def DecisionNodeList.toList : DecisionNodeList → List DecisionNode
  | .nil => []
  | .cons t ts => t :: ts.toList

def DecisionNodeList.ofList : List DecisionNode → DecisionNodeList
  | [] => .nil
  | t :: ts => .cons t (ofList ts)

/-! ## decisionNode.cpp: `findPlays` lookup -/

mutual
/-- The private `DecisionNode::findPlays` overload (decisionNode.cpp
lines 455 to 496), taking the already categorical field location, time
remaining and score differential but the raw `short` down and distance
needed. A leaf returns its stored map. A decision node reads the test
value for its split characteristic and calls
`_categoryChildMapping.at(testValue)`: `at` on a negative or
out-of-range index throws `std::out_of_range`, modelled as an error. A
mapping entry of -1 (category unseen in training) returns this node's
own `_playData`, empty since construction. -/
def DecisionNode.findPlaysCat (t : DecisionNode) (down distanceNeeded : Int)
    (fieldLocation : FieldLocation) (timeRemaining : TimeRemaining)
    (scoreDifferential : ScoreDifferential) : Except String DetailedPlayData :=
  match t with
  | .mk dv mapping children pd =>
    if children.isNil then .ok pd
    else
      let testValue : Int :=
        match dv with
        | some .down_number => down
        | some .distance_needed => distanceNeeded
        | some .field_location => (fieldLocation.toNat : Int)
        | some .time_remaining => (timeRemaining.toNat : Int)
        | some .score_differential => (scoreDifferential.toNat : Int)
        | none => 0
      if testValue < 0 ∨ mapping.length ≤ testValue.toNat then
        .error "_categoryChildMapping.at: std::out_of_range"
      else
        let childIndex := mapping.getD testValue.toNat (-1)
        if 0 ≤ childIndex then
          children.findPlaysAt childIndex.toNat down distanceNeeded fieldLocation
            timeRemaining scoreDifferential
        else
          .ok pd
  termination_by structural t

/-- `_childNodes.at(childIndex)` followed by the recursive call. -/
def DecisionNodeList.findPlaysAt (ts : DecisionNodeList) (i : Nat)
    (down distanceNeeded : Int) (fieldLocation : FieldLocation)
    (timeRemaining : TimeRemaining) (scoreDifferential : ScoreDifferential) :
    Except String DetailedPlayData :=
  match ts, i with
  | .nil, _ => .error "_childNodes.at: std::out_of_range"
  | .cons c _, 0 =>
    c.findPlaysCat down distanceNeeded fieldLocation timeRemaining scoreDifferential
  | .cons _ rest, i + 1 =>
    rest.findPlaysAt i down distanceNeeded fieldLocation timeRemaining scoreDifferential
  termination_by structural ts
end

/-- The public `DecisionNode::findPlays` overload (decisionNode.h lines
133 to 140): converts the yard line, minutes and scores to categories
but passes `down` and `distanceNeeded` through raw. -/
def DecisionNode.findPlays (t : DecisionNode)
    (down distanceNeeded yardLine minutes ownScore oppScore : Int) :
    Except String DetailedPlayData :=
  t.findPlaysCat down distanceNeeded (yardsToFieldLocation yardLine)
    (minutesToTimeRemaining minutes) (scoreToScoreDifferential ownScore oppScore)

/-! ## decisionNode.cpp: construction -/

/-- The compact category-to-child mapping built before the split
(decisionNode.cpp lines 126 to 134): populated categories are numbered in
category order, unpopulated ones get -1. -/
def buildMappingFrom : CategoryIndex → Int → List Int
  | [], _ => []
  | pi :: rest, n =>
    if pi.length > 0 then n :: buildMappingFrom rest (n + 1)
    else (-1) :: buildMappingFrom rest n

def buildMapping (ci : CategoryIndex) : List Int := buildMappingFrom ci 0

/-- Sequential construction of the child nodes for the sibling index
sets, with the source's failure propagation: the first error aborts the
whole construction (the source's catch block then frees the already
built children and rethrows). -/
def buildList (build : PlayIndexSet → Except String DecisionNode) :
    List PlayIndexSet → Except String DecisionNodeList
  | [] => .ok .nil
  | s :: rest => do
    let t ← build s
    let ts ← buildList build rest
    .ok (.cons t ts)

/-- The candidate-selection step of the constructor: with more than one
play type present, run the threshold scan over a snapshot of the tracked
characteristics (dropping redundant ones from the index set as it goes);
with a single play type the maximum achievable gain is zero by
definition, the scan is skipped and no candidate is recorded. -/
def constructorScan (ratioOf : PlayCountMap → CategoryIndex → ℚ)
    (indexes : PlayIndexSet) : PlayIndexSet × Option (PlayCharacteristic × ℚ) :=
  let playTypeCounts := indexesToPlayCounts indexes
  if 1 < playTypeCounts.length then
    scanCharacteristics (ratioOf playTypeCounts) indexes.getIndexesAvailable indexes none
  else (indexes, none)

/-- The `DecisionNode` constructor (decisionNode.cpp lines 48 to 162).
The floating-point `getInfoGainRatio` is abstracted as the oracle
`ratioOf`, applied to the fixed play-type count map of this node and the
candidate's category index - exactly the data that computation reads; the
integer-exact guards (empty count map is fatal; a single play type skips
the scan; a single populated category scores zero) are kept explicit.
When a candidate was recorded, the node becomes a decision node: the
compact mapping is built, the index set is split (an empty sibling list
is fatal), the mutated set builds the first child and each sibling set
builds one more, and the node's own play data stays empty. Otherwise the
node becomes a leaf holding `buildDetailedData`. Recursion is fuelled;
the fuel only models the recursion depth of the source, and every claim
conditions on a successful (`Except.ok`) construction. -/
def buildNode (ratioOf : PlayCountMap → CategoryIndex → ℚ)
    (summaryData : PlayType → OverallPlaySummary) :
    Nat → PlayIndexSet → Except String DecisionNode
  | 0, _ => .error "construction recursion exceeded the modelling fuel"
  | fuel + 1, indexes =>
    if (indexesToPlayCounts indexes).isEmpty then
      .error "DecisionNode create failed, passed play store empty"
    else
      let scan := constructorScan ratioOf indexes
      match scan.2 with
      | some dvr =>
        let mapping := buildMapping (scan.1.getIndex dvr.1)
        match scan.1.splitIndexByCharacteristic dvr.1 with
        | .error e => .error e
        | .ok srs =>
          if srs.2.isEmpty then
            .error "DecisionNode create failed, split of play store data failed"
          else do
            let firstChild ← buildNode ratioOf summaryData fuel srs.1
            let rest ← buildList (fun si => buildNode ratioOf summaryData fuel si) srs.2
            .ok (.mk (some dvr.1) mapping (.cons firstChild rest) [])
      | none => .ok (.mk none [] .nil (buildDetailedData scan.1 summaryData))

/-! ## decisionNode.cpp: pruning -/

/-- `bitset<11>` indexed by play type (the NASTY HACK of decisionNode.cpp
line 249): a fixed array of 11 bits. -/
abbrev PlayTypeBitSet := List Bool

def emptyBits : PlayTypeBitSet := List.replicate 11 false

def fullBits : PlayTypeBitSet := List.replicate 11 true

def bitSet (bs : PlayTypeBitSet) (pt : PlayType) : PlayTypeBitSet :=
  bs.set pt.toNat true

def bitOr (a b : PlayTypeBitSet) : PlayTypeBitSet := List.zipWith or a b

def bitAnd (a b : PlayTypeBitSet) : PlayTypeBitSet := List.zipWith and a b

def bitFlip (a : PlayTypeBitSet) : PlayTypeBitSet := a.map not

/-- A child leaf holding exactly one play type with exactly one play
(the overfit-single test of decisionNode.cpp lines 221 to 225). -/
def leafSinglePlay (pd : DetailedPlayData) : Bool :=
  match pd with
  | [(_, v)] => v.getPlayCount == 1
  | _ => false

/-- Highest play count within one child's map. -/
def mostFrequentPlay (pd : DetailedPlayData) : Nat :=
  pd.foldl (fun m e => if e.2.getPlayCount > m then e.2.getPlayCount else m) 0

/-- `DetailedPlaySummary::getPercentOfConditionPlays`. -/
def DetailedPlaySummary.getPercentOfConditionPlays (d : DetailedPlaySummary) : Nat :=
  d.percentOfConditionPlays

/-- Highest share of the child's own total within one child's map. -/
def maxPercentOf (pd : DetailedPlayData) : Nat :=
  pd.foldl (fun m e =>
    if e.2.getPercentOfConditionPlays > m then e.2.getPercentOfConditionPlays else m) 0

/-- The significant play types of one child (decisionNode.cpp lines 279
to 296): types whose share is at least three quarters of the child's
maximum share, or every type when the most frequent play occurs at most
five times (the low-sample override). -/
def significantPlays (pd : DetailedPlayData) : PlayTypeBitSet :=
  let mf := mostFrequentPlay pd
  let thr := maxPercentOf pd * 3 / 4
  pd.foldl (fun bs e =>
    if e.2.getPercentOfConditionPlays ≥ thr ∨ mf ≤ 5 then bitSet bs e.1 else bs) emptyBits

/-- The single-play and multi-play accumulation across all children
(decisionNode.cpp lines 261 to 274). -/
def singleMultiBits (cs : List DetailedPlayData) : PlayTypeBitSet × PlayTypeBitSet :=
  cs.foldl (fun acc pd =>
    pd.foldl (fun acc2 e =>
      if e.2.getPlayCount > 1 then (acc2.1, bitSet acc2.2 e.1)
      else (bitSet acc2.1 e.1, acc2.2)) acc)
    (emptyBits, emptyBits)

def anySignificantBits (cs : List DetailedPlayData) : PlayTypeBitSet :=
  cs.foldl (fun a pd => bitOr a (significantPlays pd)) emptyBits

def allSignificantBits (cs : List DetailedPlayData) : PlayTypeBitSet :=
  cs.foldl (fun a pd => bitAnd a (significantPlays pd)) fullBits

/-- The three pruning heuristics of `DecisionNode::pruneTree`, evaluated
on the play-data maps of the (all-leaf) children. The local
`unsigned short totalPlayCount` of the source (line 251) is read without
initialization; its indeterminate starting value is the parameter `g`,
and the accumulation wraps as the 16-bit unsigned it is. In the third
test the source compares `anySignificant.size()` - which for a
`bitset<11>` is the constant capacity 11, not a population count -
against half the accumulated total. -/
def shouldPrune (g : Nat) (cs : List DetailedPlayData) : Bool :=
  let singlePlayLeafCount := (cs.filter leafSinglePlay).length
  if singlePlayLeafCount ≥ cs.length - 1 then true
  else
    let totalPlayCount := (g + (cs.map detailedTotalCount).sum) % 65536
    let sm := singleMultiBits cs
    let anySig := anySignificantBits cs
    let allSig := allSignificantBits cs
    if anySig = allSig then true
    else
      let singlesOnly := bitAnd sm.1 (bitFlip sm.2)
      let someNotAll := bitAnd anySig (bitFlip allSig)
      decide (bitAnd singlesOnly someNotAll = someNotAll ∧ 11 ≤ totalPlayCount / 2)

/-- On a merge, the first child's map is taken over (`swap`) and every
further child's map is merged into it (decisionNode.cpp lines 331 to
341). -/
def mergeChildrenData : List DetailedPlayData → DetailedPlayData
  | [] => []
  | pd :: rest => rest.foldl (fun acc other => mergeData acc other) pd

/-- All children are leaves (the `haveLeaves` flag). -/
def DecisionNodeList.allLeaves : DecisionNodeList → Bool
  | .nil => true
  | .cons t ts => t.isLeaf && allLeaves ts

mutual
/-- `DecisionNode::pruneTree` (decisionNode.cpp lines 190 to 343): a leaf
is left alone; otherwise the subtrees are pruned first (pruning a child
that already is a leaf leaves it unchanged, so pruning every child is the
same as the source's pruning of the non-leaf ones only). If some child
remains a decision node the node is kept with its pruned children. When
all children are leaves, the heuristics decide: on a merge the children's
maps are combined into this node's own map and the children are removed,
turning the node into a leaf; otherwise the node keeps its pruned
children. The parameter `g` is the indeterminate initial value of the
uninitialized accumulator read by the heuristics. -/
def DecisionNode.pruneTree (g : Nat) : DecisionNode → DecisionNode
  | .mk dv mapping children pd =>
    if children.isNil then .mk dv mapping children pd
    else
      let children2 := DecisionNodeList.pruneAll g children
      if ¬ DecisionNodeList.allLeaves children2 then .mk dv mapping children2 pd
      else if shouldPrune g (children2.toList.map DecisionNode.playData) then
        .mk dv mapping .nil (mergeChildrenData (children2.toList.map DecisionNode.playData))
      else .mk dv mapping children2 pd
  termination_by structural t => t

def DecisionNodeList.pruneAll (g : Nat) : DecisionNodeList → DecisionNodeList
  | .nil => .nil
  | .cons t ts => .cons (DecisionNode.pruneTree g t) (DecisionNodeList.pruneAll g ts)
  termination_by structural ts => ts
end

/-! ## Claim C2: `findPlays` on raw situation inputs -/

/-- A leaf holding one run-left play, child 0 of the C2 example tree. -/
def exC2leafA : DecisionNode :=
  .mk none [] .nil [(.run_left, DetailedPlaySummary.make [4] 0 1 exBase)]

/-- A leaf holding one punt, child 1 of the C2 example tree. -/
def exC2leafB : DecisionNode :=
  .mk none [] .nil [(.punt, DetailedPlaySummary.make [30] 1 1 exBase)]

/-- A tree whose root splits on distance needed: categories 0
(over twenty) and 2 (four to ten yards) are populated, the rest are
unmapped (-1), exactly the compact mapping construction builds for a
five-category characteristic with two populated categories. -/
def exC2tree : DecisionNode :=
  .mk (some .distance_needed) [0, -1, 1, -1, -1]
    (.cons exC2leafA (.cons exC2leafB .nil)) []

/-- Claim C2 is false on the code: the public `findPlays` overload never
converts the raw distance-needed yardage to its category, so on a tree
split on distance needed, the legitimate query "1st down, 10 yards to
go, midfield, 20 minutes, tied" indexes the five-entry category-child
mapping with 10 and `at` throws `std::out_of_range`. A raw value that
happens to be a small number silently hits the wrong slot instead: with
1 yard to go (category 4, one-or-less) slot 1 is read, which is
unmapped, and the node's own empty map is returned. -/
theorem findPlays_raises_out_of_range :
    DecisionNode.findPlays exC2tree 1 10 50 20 0 0
      = .error "_categoryChildMapping.at: std::out_of_range"
    ∧ DecisionNode.findPlays exC2tree 1 1 50 20 0 0 = .ok [] :=
  ⟨rfl, rfl⟩

/-! ## Claim C7: the third pruning heuristic -/

/-- Child with two plays of two types (shares 500 each; most frequent
play occurs once, so the low-sample override makes both significant). -/
def exC7childA : DecisionNode :=
  .mk none [] .nil
    [(.run_left, DetailedPlaySummary.make [3] 0 2 exBase),
     (.punt, DetailedPlaySummary.make [40] 0 2 exBase)]

/-- Child with six run-left plays (only run-left significant). -/
def exC7childB : DecisionNode :=
  .mk none [] .nil [(.run_left, DetailedPlaySummary.make [1, 2, 3, 4, 5, 6] 0 6 exBase)]

/-- Another child with six run-left plays. -/
def exC7childC : DecisionNode :=
  .mk none [] .nil [(.run_left, DetailedPlaySummary.make [2, 3, 4, 5, 6, 7] 0 6 exBase)]

/-- A decision node whose three children are all leaves. Heuristic 1 does
not fire (no single-play single-type child covers 3 - 1 = 2), heuristic 2
does not fire (the significant sets differ). For heuristic 3, the types
single-occurrence somewhere and never multi-occurrence are exactly
`{punt}`, which equals the types significant in some but not all
children, and the punt's single occurrence is at most half of the 14
combined plays - the claim's condition holds, so the claim says merge. -/
def exC7parent : DecisionNode :=
  .mk (some .down_number) [0, 1, 2, -1, -1]
    (.cons exC7childA (.cons exC7childB (.cons exC7childC .nil))) []

/-- Claim C7 evaluated on the code: with the uninitialized accumulator
starting at 0 the third heuristic compares the `bitset<11>` capacity 11
against 14 / 2 = 7 and refuses the merge the claim requires, leaving the
tree unchanged; with the same tree and an indeterminate starting value of
50 the very same comparison succeeds and the node is merged into a leaf.
The code's behaviour depends on an uninitialized read and on
`bitset::size`, not on the occurrence count of the rare types. -/
theorem pruneTree_heuristic3_depends_on_garbage :
    DecisionNode.pruneTree 0 exC7parent = exC7parent
    ∧ DecisionNode.isLeaf (DecisionNode.pruneTree 50 exC7parent) = true :=
  ⟨rfl, rfl⟩

/-! ## Claim C9: pruning is idempotent -/

theorem pruneAll_cons (g : Nat) (c0 : DecisionNode) (rest : DecisionNodeList) :
    DecisionNodeList.pruneAll g (.cons c0 rest)
      = .cons (DecisionNode.pruneTree g c0) (DecisionNodeList.pruneAll g rest) := rfl

theorem pruneTree_unfold_cons (g : Nat) (dv : Option PlayCharacteristic)
    (mapping : List Int) (c0 : DecisionNode) (rest : DecisionNodeList)
    (pd : DetailedPlayData) :
    DecisionNode.pruneTree g (.mk dv mapping (.cons c0 rest) pd)
      = (let children2 := DecisionNodeList.pruneAll g (.cons c0 rest)
         if ¬ DecisionNodeList.allLeaves children2 then .mk dv mapping children2 pd
         else if shouldPrune g (children2.toList.map DecisionNode.playData) then
           .mk dv mapping .nil (mergeChildrenData (children2.toList.map DecisionNode.playData))
         else .mk dv mapping children2 pd) := rfl

/-- Counterexample to C9 as stated: each `pruneTree` invocation reads a
fresh uninitialized accumulator, and nothing makes its indeterminate
value repeat across invocations. On `exC7parent`, a first pass whose
accumulator starts at 0 leaves the node unmerged, and a second pass
whose accumulator starts at 50 then merges it into a leaf - so invoking
pruning twice in succession does not reproduce the single-pass tree. -/
theorem pruneTree_twice_differs_with_fresh_garbage :
    DecisionNode.pruneTree 50 (DecisionNode.pruneTree 0 exC7parent)
      ≠ DecisionNode.pruneTree 0 exC7parent := by
  decide

/-- Claim C9 as amended: pruning is idempotent provided both invocations
resolve the uninitialized accumulator read (decisionNode.cpp line 251) to
the same indeterminate value - for every tree and every such value `g`,
held fixed across the two passes, pruning a pruned tree changes nothing.
In particular the property holds under any deterministic resolution of
the uninitialized read; with values that differ between the two passes it
fails, as the counterexample shows. -/
theorem pruneTree_idempotent (g : Nat) (t : DecisionNode) :
    DecisionNode.pruneTree g (DecisionNode.pruneTree g t) = DecisionNode.pruneTree g t := by
  induction t using DecisionNode.rec
    (motive_2 := fun ts => DecisionNodeList.pruneAll g (DecisionNodeList.pruneAll g ts)
      = DecisionNodeList.pruneAll g ts) with
  | mk dv mapping children pd ih =>
    cases children with
    | nil => rfl
    | cons c0 rest =>
      rw [pruneTree_unfold_cons]
      simp only []
      by_cases hl : DecisionNodeList.allLeaves (DecisionNodeList.pruneAll g (.cons c0 rest))
      · rw [if_neg (by simp [hl])]
        by_cases hs : shouldPrune g
            ((DecisionNodeList.pruneAll g (.cons c0 rest)).toList.map DecisionNode.playData)
        · rw [if_pos hs]
          rfl
        · rw [if_neg hs]
          rw [pruneAll_cons, pruneTree_unfold_cons]
          simp only []
          rw [← pruneAll_cons, ih]
          rw [if_neg (by simp [hl]), if_neg hs]
      · rw [if_pos (by simp [hl])]
        rw [pruneAll_cons, pruneTree_unfold_cons]
        simp only []
        rw [← pruneAll_cons, ih]
        rw [if_pos (by simp [hl])]
  | nil => rfl
  | cons c ts ihc ihts =>
    rw [pruneAll_cons, pruneAll_cons, ihc, ihts]

/-! ## Claim C10: every node is a leaf or has at least two children -/

mutual
/-- Every node of the subtree is a leaf or has at least two children. -/
def DecisionNode.goodArity : DecisionNode → Bool
  | .mk _ _ children _ =>
    (children.isNil || decide (2 ≤ children.toList.length))
      && DecisionNodeList.goodArityAll children
  termination_by structural t => t

def DecisionNodeList.goodArityAll : DecisionNodeList → Bool
  | .nil => true
  | .cons t ts => DecisionNode.goodArity t && DecisionNodeList.goodArityAll ts
  termination_by structural ts => ts
end

theorem buildList_ok_arity (build : PlayIndexSet → Except String DecisionNode)
    (hb : ∀ s2 t2, build s2 = .ok t2 → t2.goodArity = true) :
    ∀ l ts, buildList build l = .ok ts →
      DecisionNodeList.goodArityAll ts = true ∧ ts.toList.length = l.length := by
  intro l
  induction l with
  | nil =>
    intro ts h
    rw [buildList] at h
    simp only [Except.ok.injEq] at h
    subst h
    exact ⟨rfl, rfl⟩
  | cons s rest ih =>
    intro ts h
    rw [buildList] at h
    simp only [bind, Except.bind] at h
    cases h1 : build s with
    | error e => rw [h1] at h; simp at h
    | ok t1 =>
      rw [h1] at h
      cases h2 : buildList build rest with
      | error e => rw [h2] at h; simp at h
      | ok ts1 =>
        rw [h2] at h
        simp only [Except.ok.injEq] at h
        subst h
        obtain ⟨ha, hl⟩ := ih ts1 h2
        refine ⟨?_, ?_⟩
        · rw [DecisionNodeList.goodArityAll]
          rw [hb s t1 h1, ha]
          rfl
        · rw [DecisionNodeList.toList]
          simp [hl]

theorem pruneAll_toList_length (g : Nat) (ts : DecisionNodeList) :
    (DecisionNodeList.pruneAll g ts).toList.length = ts.toList.length := by
  induction ts using DecisionNodeList.rec (motive_1 := fun _ => True) with
  | mk _ _ _ _ _ => trivial
  | nil => rfl
  | cons c rest _ ih =>
    rw [pruneAll_cons, DecisionNodeList.toList, DecisionNodeList.toList]
    simp [ih]

/-- Claim C10: every successfully constructed node is a leaf or has at
least two children (one for the mutated index set plus at least one
sibling, an empty sibling list being fatal), and pruning preserves this:
a merge removes all children at once, so no reachable tree has a node
with exactly one child. -/
theorem tree_arity_invariant :
    (∀ (ratioOf : PlayCountMap → CategoryIndex → ℚ)
        (summaryData : PlayType → OverallPlaySummary)
        (fuel : Nat) (s : PlayIndexSet) (t : DecisionNode),
        buildNode ratioOf summaryData fuel s = .ok t → t.goodArity = true)
    ∧ (∀ (g : Nat) (t : DecisionNode), t.goodArity = true →
        (DecisionNode.pruneTree g t).goodArity = true) := by
  constructor
  · intro ratioOf summaryData fuel
    induction fuel with
    | zero =>
      intro s t h
      rw [buildNode] at h
      simp at h
    | succ fuel ih =>
      intro s t h
      rw [buildNode] at h
      by_cases h0 : (indexesToPlayCounts s).isEmpty
      · rw [if_pos h0] at h
        simp at h
      · rw [if_neg h0] at h
        simp only [] at h
        cases hscan : (constructorScan ratioOf s).2 with
        | none =>
          simp only [hscan] at h
          simp only [Except.ok.injEq] at h
          subst h
          rfl
        | some dvr =>
          simp only [hscan] at h
          cases hsplit : (constructorScan ratioOf s).1.splitIndexByCharacteristic dvr.1 with
          | error e =>
            simp only [hsplit] at h
            simp at h
          | ok srs =>
            simp only [hsplit] at h
            by_cases hempty : srs.2.isEmpty
            · rw [if_pos hempty] at h
              simp at h
            · rw [if_neg hempty] at h
              simp only [bind, Except.bind] at h
              cases hfc : buildNode ratioOf summaryData fuel srs.1 with
              | error e => rw [hfc] at h; simp at h
              | ok firstChild =>
                rw [hfc] at h
                cases hrest : buildList
                    (fun si => buildNode ratioOf summaryData fuel si) srs.2 with
                | error e => rw [hrest] at h; simp at h
                | ok restChildren =>
                  rw [hrest] at h
                  simp only [Except.ok.injEq] at h
                  subst h
                  obtain ⟨hall, hlen⟩ := buildList_ok_arity
                    (fun si => buildNode ratioOf summaryData fuel si)
                    (fun s2 t2 h2 => ih s2 t2 h2) srs.2 restChildren hrest
                  have hne2 : srs.2 ≠ [] := by
                    intro hx
                    rw [hx] at hempty
                    exact hempty rfl
                  have hlen2 : 1 ≤ srs.2.length := by
                    cases hsx : srs.2 with
                    | nil => exact absurd hsx hne2
                    | cons a b => simp [hsx]
                  rw [DecisionNode.goodArity]
                  rw [DecisionNodeList.goodArityAll]
                  rw [ih srs.1 firstChild hfc, hall]
                  have hlsz : 2 ≤ (DecisionNodeList.cons firstChild restChildren).toList.length := by
                    rw [DecisionNodeList.toList]
                    simp [hlen]
                    omega
                  simp [hlsz]
  · intro g
    intro t
    induction t using DecisionNode.rec
      (motive_2 := fun ts => DecisionNodeList.goodArityAll ts = true →
        DecisionNodeList.goodArityAll (DecisionNodeList.pruneAll g ts) = true) with
    | mk dv mapping children pd ih =>
      intro hgood
      rw [DecisionNode.goodArity] at hgood
      rw [Bool.and_eq_true] at hgood
      obtain ⟨harity, hall⟩ := hgood
      cases children with
      | nil => exact harity ▸ rfl
      | cons c0 rest =>
        have hlen : 2 ≤ (DecisionNodeList.cons c0 rest).toList.length := by
          rw [Bool.or_eq_true] at harity
          rcases harity with h | h
          · simp [DecisionNodeList.isNil] at h
          · exact of_decide_eq_true h
        rw [pruneTree_unfold_cons]
        simp only []
        by_cases hl : DecisionNodeList.allLeaves (DecisionNodeList.pruneAll g (.cons c0 rest))
        · by_cases hs : shouldPrune g
              ((DecisionNodeList.pruneAll g (.cons c0 rest)).toList.map DecisionNode.playData)
          · rw [if_neg (by simp [hl]), if_pos hs]
            rfl
          · rw [if_neg (by simp [hl]), if_neg hs]
            rw [DecisionNode.goodArity, Bool.and_eq_true]
            refine ⟨?_, ih hall⟩
            rw [Bool.or_eq_true]
            right
            rw [pruneAll_toList_length]
            exact decide_eq_true hlen
        · rw [if_pos (by simp [hl])]
          rw [DecisionNode.goodArity, Bool.and_eq_true]
          refine ⟨?_, ih hall⟩
          rw [Bool.or_eq_true]
          right
          rw [pruneAll_toList_length]
          exact decide_eq_true hlen
    | nil => rfl
    | cons c ts ihc ihts =>
      rename_i hgood
      rw [DecisionNodeList.goodArityAll, Bool.and_eq_true] at hgood
      rw [pruneAll_cons, DecisionNodeList.goodArityAll, Bool.and_eq_true]
      exact ⟨ihc hgood.1, ihts hgood.2⟩

/-- Example play: another run left on second down. -/
def exP3 : SinglePlay :=
  { refId := 3, playType := .run_left, down := 2, distanceNeeded := .four_to_one
    fieldLocation := .middle, timeRemaining := .outside_two_minutes
    scoreDifferential := .even, distanceGained := 7, turnedOver := false }

/-- A consistent two-play index set whose records all share one play
type (both run left), tracking two characteristics. -/
def exC4set : PlayIndexSet :=
  { indexes := [.down_number, .time_remaining]
    downIndex := [[], [exP1], [exP3], [], []]
    distanceNeededIndex := []
    fieldLocationIndex := []
    timeRemainingIndex := [[exP1, exP3], []]
    scoreDifferentialIndex := [] }

/-- The leaf the constructor builds from `exC4set`. -/
def exC4leaf : DecisionNode :=
  .mk none [] .nil (buildDetailedData exC4set (fun _ => exBase))

/-- Witness for C10: a concrete successful construction satisfies the
arity invariant, and pruning the concrete all-leaf-children tree
preserves it. -/
theorem tree_arity_invariant_witness :
    buildNode (fun _ _ => (0 : ℚ)) (fun _ => exBase) 1 exC4set = .ok exC4leaf
    ∧ exC4leaf.goodArity = true
    ∧ exC7parent.goodArity = true
    ∧ (DecisionNode.pruneTree 0 exC7parent).goodArity = true :=
  ⟨rfl,
   tree_arity_invariant.1 (fun _ _ => 0) (fun _ => exBase) 1 exC4set exC4leaf rfl,
   rfl,
   tree_arity_invariant.2 0 exC7parent rfl⟩

/-! ## Claim C4: a single play type builds a leaf with one full entry -/

theorem bumpPlayCount_single (pt : PlayType) (m : Nat) :
    bumpPlayCount pt [(pt, m)] = [(pt, m + 1)] := by
  rw [bumpPlayCount]
  simp

theorem indexToPlayCounts_uniform (pt : PlayType) :
    ∀ (l : List SinglePlay) (m : Nat), (∀ p ∈ l, p.playType = pt) →
      indexToPlayCounts l [(pt, m)] = [(pt, m + l.length)] := by
  intro l
  induction l with
  | nil => intro m _; rfl
  | cons q rest ih =>
    intro m huni
    rw [indexToPlayCounts, List.foldl_cons]
    rw [huni q (List.mem_cons_self q rest), bumpPlayCount_single]
    have := ih (m + 1) (fun p hp => huni p (List.mem_cons_of_mem q hp))
    rw [indexToPlayCounts] at this
    rw [this]
    simp
    omega

theorem foldl_categories_flatten (init : PlayCountMap) :
    ∀ ci : CategoryIndex,
      ci.foldl (fun d pi => indexToPlayCounts pi d) init = indexToPlayCounts ci.flatten init := by
  intro ci
  induction ci generalizing init with
  | nil => rfl
  | cons pi rest ih =>
    rw [List.foldl_cons, ih, List.flatten_cons]
    simp only [indexToPlayCounts]
    rw [List.foldl_append]

theorem indexesToPlayCounts_uniform (s : PlayIndexSet) (pt : PlayType)
    (hne : playsOf s ≠ []) (huni : ∀ p ∈ playsOf s, p.playType = pt) :
    indexesToPlayCounts s = [(pt, (playsOf s).length)] := by
  rw [indexesToPlayCounts]
  cases hh : s.getIndexesAvailable.head? with
  | none =>
    exfalso
    apply hne
    rw [playsOf, hh]
  | some c =>
    have hp : playsOf s = (s.getIndex c).flatten := by
      rw [playsOf, hh]
    show (s.getIndex c).foldl (fun d pi => indexToPlayCounts pi d) [] = _
    rw [foldl_categories_flatten]
    rw [← hp]
    cases hl : playsOf s with
    | nil => exact absurd hl hne
    | cons q rest =>
      have huni2 := hl ▸ huni
      rw [indexToPlayCounts, List.foldl_cons]
      have hq : q.playType = pt := huni2 q (List.mem_cons_self q rest)
      rw [hq]
      have hb : bumpPlayCount pt [] = [(pt, 1)] := rfl
      rw [hb]
      have := indexToPlayCounts_uniform pt rest 1
        (fun p hp2 => huni2 p (List.mem_cons_of_mem q hp2))
      rw [indexToPlayCounts] at this
      rw [this]
      simp [Nat.add_comm]

theorem filterMap_single {α : Type} (pt : PlayType) (g : PlayType → Option α) (x : α)
    (hg : ∀ q, q ≠ pt → g q = none) (hx : g pt = some x) :
    ∀ l : List PlayType, l.Nodup → pt ∈ l → l.filterMap g = [x] := by
  intro l
  induction l with
  | nil => intro _ hmem; simp at hmem
  | cons q rest ih =>
    intro hnd hmem
    by_cases hq : q = pt
    · subst hq
      rw [List.filterMap_cons, hx]
      have hrest : rest.filterMap g = [] := by
        rw [List.filterMap_eq_nil]
        intro a ha
        have : a ≠ q := fun h => (List.nodup_cons.mp hnd).1 (h ▸ ha)
        rw [hg a this]
      rw [hrest]
    · rw [List.filterMap_cons, hg q hq]
      have hmem2 : pt ∈ rest := by
        rcases List.mem_cons.mp hmem with h | h
        · exact absurd h.symm hq
        · exact h
      exact ih (List.nodup_cons.mp hnd).2 hmem2

theorem sum_single (pt : PlayType) (f : PlayType → Nat)
    (hf : ∀ q, q ≠ pt → f q = 0) :
    ∀ l : List PlayType, l.Nodup → pt ∈ l → (l.map f).sum = f pt := by
  intro l
  induction l with
  | nil => intro _ hmem; simp at hmem
  | cons q rest ih =>
    intro hnd hmem
    rw [List.map_cons, List.sum_cons]
    by_cases hq : q = pt
    · subst hq
      have hrest : (rest.map f).sum = 0 := by
        have : ∀ x ∈ rest.map f, x = 0 := by
          intro x hx
          obtain ⟨a, ha, hax⟩ := List.mem_map.mp hx
          have : a ≠ q := fun h => (List.nodup_cons.mp hnd).1 (h ▸ ha)
          rw [← hax, hf a this]
        exact List.sum_eq_zero this
      rw [hrest]
      omega
    · rw [hf q hq]
      have hmem2 : pt ∈ rest := by
        rcases List.mem_cons.mp hmem with h | h
        · exact absurd h.symm hq
        · exact h
      rw [ih (List.nodup_cons.mp hnd).2 hmem2]
      omega

theorem playTypeList_nodup : playTypeList.Nodup := by decide

theorem mem_playTypeList (pt : PlayType) : pt ∈ playTypeList := by
  cases pt <;> simp [playTypeList]

theorem insertSorted_length (x : Int) (l : List Int) :
    (insertSorted x l).length = l.length + 1 := by
  induction l with
  | nil => rfl
  | cons y ys ih =>
    rw [insertSorted]
    by_cases h : x ≤ y
    · rw [if_pos h]
      rfl
    · rw [if_neg h]
      simp [ih]

theorem sortDistances_length (l : List Int) : (sortDistances l).length = l.length := by
  induction l with
  | nil => rfl
  | cons x xs ih =>
    rw [sortDistances, List.foldr_cons]
    rw [insertSorted_length]
    rw [sortDistances] at ih
    rw [ih]
    rfl

theorem buildDetailedData_uniform (s : PlayIndexSet) (pt : PlayType)
    (summaryData : PlayType → OverallPlaySummary)
    (hne : playsOf s ≠ []) (huni : ∀ p ∈ playsOf s, p.playType = pt) :
    buildDetailedData s summaryData
      = [(pt, DetailedPlaySummary.make ((playsOf s).map (fun p => p.distanceGained))
          (((playsOf s).filter (fun p => p.playType = pt ∧ p.turnedOver = true)).length)
          ((playsOf s).length) (summaryData pt))] := by
  have hfe : (playsOf s).filter (fun p => p.playType = pt) = playsOf s := by
    rw [List.filter_eq_self]
    intro a ha
    simp [huni a ha]
  have hfo : ∀ q, q ≠ pt → (playsOf s).filter (fun p => p.playType = q) = [] := by
    intro q hq
    rw [List.filter_eq_nil_iff]
    intro a ha
    simp [huni a ha]
    exact fun h => hq h.symm
  have hsum : (playTypeList.map (fun q =>
      (((playsOf s).filter (fun p => p.playType = q)).map
        (fun p => p.distanceGained)).length)).sum = (playsOf s).length := by
    rw [sum_single pt _ ?_ playTypeList playTypeList_nodup (mem_playTypeList pt)]
    · rw [hfe, List.length_map]
    · intro q hq
      rw [hfo q hq]
      rfl
  rw [buildDetailedData]
  simp only []
  rw [hsum]
  refine filterMap_single pt _ _ ?_ ?_ playTypeList playTypeList_nodup (mem_playTypeList pt)
  · intro q hq
    simp only [hfo q hq]
    rfl
  · simp only [hfe]
    cases hl : playsOf s with
    | nil => exact absurd hl hne
    | cons a rest => rfl

/-- Claim C4: constructing a node from a non-empty index set whose
records all share one play type yields a leaf (no children, no decision
value) whose play-data map has exactly one entry, for that play type,
whose play count is the full record count of the index set. -/
theorem single_play_type_builds_leaf
    (ratioOf : PlayCountMap → CategoryIndex → ℚ)
    (summaryData : PlayType → OverallPlaySummary)
    (fuel : Nat) (s : PlayIndexSet) (pt : PlayType)
    (hne : playsOf s ≠ []) (huni : ∀ p ∈ playsOf s, p.playType = pt) :
    buildNode ratioOf summaryData (fuel + 1) s
      = .ok (.mk none [] .nil (buildDetailedData s summaryData))
    ∧ (buildDetailedData s summaryData).length = 1
    ∧ ∀ e ∈ buildDetailedData s summaryData,
        e.1 = pt ∧ e.2.getPlayCount = (playsOf s).length := by
  have hc := indexesToPlayCounts_uniform s pt hne huni
  have hscan : constructorScan ratioOf s = (s, none) := by
    rw [constructorScan, hc]
    simp
  refine ⟨?_, ?_, ?_⟩
  · rw [buildNode, hc]
    simp only [hscan]
    rfl
  · rw [buildDetailedData_uniform s pt summaryData hne huni]
    rfl
  · intro e he
    rw [buildDetailedData_uniform s pt summaryData hne huni] at he
    simp only [List.mem_singleton] at he
    subst he
    refine ⟨rfl, ?_⟩
    rw [DetailedPlaySummary.make]
    simp only [DetailedPlaySummary.getPlayCount]
    rw [sortDistances_length, List.length_map]

/-- Witness for C4: the two-run-left index set builds a leaf whose
single entry counts both records. -/
theorem single_play_type_builds_leaf_witness :
    playsOf exC4set ≠ []
    ∧ (∀ p ∈ playsOf exC4set, p.playType = .run_left)
    ∧ (buildNode (fun _ _ => (0 : ℚ)) (fun _ => exBase) 1 exC4set
        = .ok (.mk none [] .nil (buildDetailedData exC4set (fun _ => exBase)))
      ∧ (buildDetailedData exC4set (fun _ => exBase)).length = 1
      ∧ ∀ e ∈ buildDetailedData exC4set (fun _ => exBase),
          e.1 = .run_left ∧ e.2.getPlayCount = (playsOf exC4set).length) :=
  ⟨by decide, by decide,
    single_play_type_builds_leaf (fun _ _ => 0) (fun _ => exBase) 0 exC4set .run_left
      (by decide) (by decide)⟩
